import Mathlib

/-! # toad: nergen / enr_nergen / nerv

A shallow embedding of the corpus-enrichment code of `src/nergen.cxx` and
`src/enr_nergen.cxx` and of the windowing filter `src/nerv.cxx`, with the
properties of the specification stated over it.

Conventions of the embedding

* An output stream is the list of the lines written to it: every
  `os << line << endl` appends one element (`os << endl` appends `""`).
* An input stream is the list of the lines `getline` returns.
* `std::vector<T>` is `List T`; `v[i]` is `v[i]?` inside `Option`, so that a
  read past the end (undefined behaviour in C++) makes the function return
  `none` instead of inventing a value.
* The libraries the programs call (ticcutils, frog, mbt) are not part of the
  repository; their entry points are the fields of `Services`.
-/

namespace Toad

/-! ## External collaborators -/

/-- One element of the vector returned by `MbtAPI::TagLine`: a token and the
POS tag assigned to it (`Tagger::TagResult::word()`, `assigned_tag()`). -/
structure TagResult where
  word : String
  assigned_tag : String
  deriving DecidableEq, Repr

/-- The type `tc_pair` of frog: a tag with a confidence. -/
abbrev tc_pair := String × ℚ

/-- The library functions called by the programs.

* `split`      : `TiCC::split( line, parts )` / `TiCC::split( blob )`, the
  fields of a string (the call returns their number, `parts` holds them);
* `split_at`   : `TiCC::split_at( src, sep )`;
* `create_ner_list` : `NERTagger::create_ner_list( words )`, the gazetteer
  label of every word;
* `merge_override` : `NERTagger::merge_override( tags, overrides, unconditional, POS_tags )`,
  which rewrites its first argument in place; the function gives the new value
  of that argument;
* `TagLine`    : `MbtAPI::TagLine( blob )`. -/
structure Services where
  split : String → List String
  split_at : String → String → List String
  create_ner_list : List String → List String
  merge_override : List tc_pair → List tc_pair → Bool → List String → List tc_pair
  TagLine : String → List TagResult

/-! ## `nergen.cxx` : writing one sentence -/

/-- The line that closes a sentence block (`nergen.cxx` 169-175, 208-214):
`os << endl` when `EOS_MARK == "\n"`, `os << EOS_MARK << endl` otherwise. -/
def eos_line (EOS_MARK : String) : String :=
  if EOS_MARK = "\n" then "" else EOS_MARK

/-- The loop of `spit_out` for `bootstrap == false` (`nergen.cxx` 146-167,
`enr_nergen.cxx` 117-138).  The first numeric argument counts the iterations
still to run, the second is the loop index `i`; `prevP` and `prevN` are the
two running variables.  `words.size() - 1` is only evaluated inside the body,
where `words.size() ≥ 1`, so the unsigned subtraction does not wrap. -/
def spit_loop (words tags gazet_tags ner_file_tags : List String) :
    Nat → Nat → String → String → Option (List String)
  | 0, _, _, _ => some []
  | k + 1, i, prevP, prevN => do
    let w ← words[i]?
    let t ← tags[i]?
    let line := w ++ "\t" ++ prevP ++ "\t" ++ t ++ "\t"
    let line ← (if i < words.length - 1 then (tags[i + 1]?).map (fun x => line ++ (x ++ "\t"))
      else some (line ++ "_\t"))
    let g ← gazet_tags[i]?
    let line := line ++ (prevN ++ "\t" ++ g ++ "\t")
    let line ← (if i < words.length - 1 then (gazet_tags[i + 1]?).map (fun x => line ++ (x ++ "\t"))
      else some (line ++ "_\t"))
    let o ← ner_file_tags[i]?
    let line := line ++ o
    let rest ← spit_loop words tags gazet_tags ner_file_tags k (i + 1) t g
    some (line :: rest)

/-- The loop of `spit_out` for `bootstrap == true` (`nergen.cxx` 139-143). -/
def spit_boot_loop (words ner_file_tags : List String) : Nat → Nat → Option (List String)
  | 0, _ => some []
  | k + 1, i => do
    let w ← words[i]?
    let line := w ++ "\t"
    let o ← ner_file_tags[i]?
    let line := line ++ o
    let rest ← spit_boot_loop words ner_file_tags k (i + 1)
    some (line :: rest)

/-- The function `spit_out` of `nergen.cxx` (113-176).  `EOS_MARK` is the
global of that name.  The result is the list of lines written to `os`.

In the `override` branch the source copies both tag vectors into the locals
`orig_ners` and `gazet_ners` and calls `merge_override` on them; the merged
vector stays in the local `orig_ners`, which is not read afterwards, and
`ner_file_tags` keeps the value it got from `orig_ner_file_tags`. -/
def spit_out (S : Services) (EOS_MARK : String) (tagv : List TagResult)
    (orig_ner_file_tags : List String) (override bootstrap : Bool) : Option (List String) := do
  let words := tagv.map (fun tr => tr.word)
  let tags := tagv.map (fun tr => tr.assigned_tag)
  let gazet_tags := S.create_ner_list words
  let ner_file_tags := orig_ner_file_tags
  let _orig_ners : List tc_pair :=
    if override then
      S.merge_override (orig_ner_file_tags.map (fun it => (it, 1)))
        (gazet_tags.map (fun it => (it, 1))) bootstrap tags
    else []
  let recs ← (if bootstrap then spit_boot_loop words ner_file_tags words.length 0
    else spit_loop words tags gazet_tags ner_file_tags words.length 0 "_" "_")
  some (recs ++ [eos_line EOS_MARK])

/-- The function `to_tag` of `nergen.cxx` (178-187): a label that splits at
`+` into more than one part is undecided and becomes `"O"`, otherwise the
result is `parts[0]`. -/
def to_tag (S : Services) (label : String) : Option String :=
  let parts := S.split_at label "+"
  if parts.length > 1 then some "O" else parts[0]?

/-- The loop of `boot_out` (`nergen.cxx` 193-207).  The first numeric argument
counts the iterations still to run, the second is the loop index `i`;
`prev_tag` is the running variable, which is assigned only when the tag of
the current word is not `"O"`. -/
def boot_loop (S : Services) (words gazet_tags : List String) :
    Nat → Nat → String → Option (List String)
  | 0, _, _ => some []
  | k + 1, i, prev_tag => do
    let w ← words[i]?
    let line := w ++ "\t"
    let g ← gazet_tags[i]?
    let tag ← to_tag S g
    let line := if tag ≠ "O" then (if tag = prev_tag then line ++ "I-" else line ++ "B-") else line
    let prev_tag := if tag ≠ "O" then tag else prev_tag
    let line := line ++ tag
    let rest ← boot_loop S words gazet_tags k (i + 1) prev_tag
    some (line :: rest)

/-- The function `boot_out` of `nergen.cxx` (189-215); `prev_tag` starts as
the empty string. -/
def boot_out (S : Services) (EOS_MARK : String) (words : List String) : Option (List String) := do
  let gazet_tags := S.create_ner_list words
  let recs ← boot_loop S words gazet_tags words.length 0 ""
  some (recs ++ [eos_line EOS_MARK])

/-! ## `nergen.cxx` : reading the input file -/

/-- How a run of `create_train_file` or `create_boot_file` ends: the function
returns (`done`), it prints `DOOD: ` and the line and calls
`exit(EXIT_FAILURE)` (`DOOD line`), or a vector is read past its end
(`undefined`). -/
inductive Exit where
  | done
  | DOOD (line : String)
  | undefined
  deriving DecidableEq, Repr

/-- What a run leaves behind: the global `EOS_MARK`, the lines written to the
output file `os` (on `undefined`: the lines written before the read past the
end), how the run ended, and `handed`, a history of the sentences handed on
for output so far (one entry per call of `spit_out` / `boot_out`, in order).
`handed` is not a variable of the program; no branch reads it. -/
structure Run (α : Type) where
  EOS_MARK : String
  os : List String
  handed : List α
  exit : Exit
  deriving DecidableEq, Repr

/-- The arguments of one call `tagger->TagLine( blob )` followed by
`spit_out( os, tagv, ner_file_tags, ... )`, with the value of the global
`EOS_MARK` at the call. -/
structure Flush where
  EOS_MARK : String
  blob : String
  ner_file_tags : List String
  deriving DecidableEq, Repr

/-- The variables of `create_train_file` between two iterations of its
`while ( getline( is, line ) )` loop, with the history `handed`.  The counter
`HeartBeat` only drives progress dots on `cout` and is left out. -/
structure TrainState where
  EOS_MARK : String
  blob : String
  ner_file_tags : List String
  os : List String
  handed : List Flush
  deriving DecidableEq, Repr

/-- The run that ends in state `st` with exit `e`. -/
def TrainState.stop (st : TrainState) (e : Exit) : Run Flush :=
  ⟨st.EOS_MARK, st.os, st.handed, e⟩

/-- The two statements `tagv = tagger->TagLine( blob ); spit_out( os, tagv,
ner_file_tags, ... );` (`nergen.cxx` 234-235, 257-258).  `emit` is the call of
`spit_out` with its flags filled in. -/
def train_flush (S : Services)
    (emit : String → List TagResult → List String → Option (List String))
    (st : TrainState) : Except (Run Flush) TrainState :=
  let call : Flush := ⟨st.EOS_MARK, st.blob, st.ner_file_tags⟩
  match emit st.EOS_MARK (S.TagLine st.blob) st.ner_file_tags with
  | some out => .ok { st with os := st.os ++ out, handed := st.handed ++ [call] }
  | none => .error ({ st with handed := st.handed ++ [call] }.stop .undefined)

/-- The part of an iteration of the `while` loop of `create_train_file` that
follows the test for the marker (`nergen.cxx` 232-254, `enr_nergen.cxx`
161-183).  `TiCC::split( line, parts ) != 2` is the case where `parts` is not
a list of two elements. -/
def train_body (S : Services)
    (emit : String → List TagResult → List String → Option (List String))
    (st : TrainState) (line : String) : Except (Run Flush) TrainState :=
  if line = "" then
    if st.blob ≠ "" then
      (train_flush S emit st).map (fun st => { st with blob := "", ner_file_tags := [] })
    else .ok st
  else
    match S.split line with
    | [w, t] => .ok { st with blob := st.blob ++ (w ++ "\n"),
                              ner_file_tags := st.ner_file_tags ++ [t] }
    | _ => .error (st.stop (.DOOD line))

/-- One iteration of the `while` loop of `create_train_file` on the line just
read: a line `<utt>` sets the global `EOS_MARK` and is cleared
(`nergen.cxx` 228-231), then the rest of the body runs. -/
def train_step (S : Services)
    (emit : String → List TagResult → List String → Option (List String))
    (st : TrainState) (line : String) : Except (Run Flush) TrainState :=
  let st := if line = "<utt>" then { st with EOS_MARK := "<utt>" } else st
  let line := if line = "<utt>" then "" else line
  train_body S emit st line

/-- The `while` loop of `create_train_file` over the lines of the input. -/
def train_lines (S : Services)
    (emit : String → List TagResult → List String → Option (List String)) :
    TrainState → List String → Except (Run Flush) TrainState
  | st, [] => .ok st
  | st, line :: rest =>
    match train_step S emit st line with
    | .ok st => train_lines S emit st rest
    | .error r => .error r

/-- The statements after the loop (`nergen.cxx` 256-259): a last sentence
still in `blob` is handed on. -/
def train_end (S : Services)
    (emit : String → List TagResult → List String → Option (List String))
    (st : TrainState) : Run Flush :=
  if st.blob ≠ "" then
    match train_flush S emit st with
    | .ok st => st.stop .done
    | .error r => r
  else st.stop .done

/-- The loop and the statements after it, from state `st`. -/
def train_run (S : Services)
    (emit : String → List TagResult → List String → Option (List String))
    (st : TrainState) (lines : List String) : Run Flush :=
  match train_lines S emit st lines with
  | .ok st => train_end S emit st
  | .error r => r

/-- The state in which the loop starts: `EOS_MARK` has its initial value
`"\n"`, the buffers and the output file are empty. -/
def TrainState.init : TrainState := ⟨"\n", "", [], [], []⟩

/-- The function `create_train_file` of `nergen.cxx` (217-260) on the input
lines `lines`; it calls `spit_out( os, tagv, ner_file_tags, override, false )`. -/
def create_train_file (S : Services) (override : Bool) (lines : List String) : Run Flush :=
  train_run S (fun m tagv tags => spit_out S m tagv tags override false) TrainState.init lines

/-- The variables of `create_boot_file` between two iterations of its loop,
with the history `handed` of the calls of `boot_out` (the value of `EOS_MARK`
at the call and the words).  The counter `HeartBeat` is left out as in
`TrainState`. -/
structure BootState where
  EOS_MARK : String
  blob : String
  os : List String
  handed : List (String × List String)
  deriving DecidableEq, Repr

/-- The run that ends in state `st` with exit `e`. -/
def BootState.stop (st : BootState) (e : Exit) : Run (String × List String) :=
  ⟨st.EOS_MARK, st.os, st.handed, e⟩

/-- The call `boot_out( os, words )`. -/
def boot_flush (S : Services) (st : BootState) (words : List String) :
    Except (Run (String × List String)) BootState :=
  match boot_out S st.EOS_MARK words with
  | some out => .ok { st with os := st.os ++ out, handed := st.handed ++ [(st.EOS_MARK, words)] }
  | none => .error ({ st with handed := st.handed ++ [(st.EOS_MARK, words)] }.stop .undefined)

/-- The part of an iteration of the `while` loop of `create_boot_file` that
follows the test for the marker (`nergen.cxx` 275-303). -/
def boot_body (S : Services) (running : Bool) (st : BootState) (line : String) :
    Except (Run (String × List String)) BootState :=
  if line = "" then
    if st.blob ≠ "" then
      (boot_flush S st (S.split st.blob)).map (fun st => { st with blob := "" })
    else .ok st
  else if running then
    boot_flush S st (S.split line)
  else
    match S.split line with
    | [w, _] => .ok { st with blob := st.blob ++ (w ++ " ") }
    | _ => .error (st.stop (.DOOD line))

/-- One iteration of the `while` loop of `create_boot_file` on the line just
read: a line `<utt>` sets the global `EOS_MARK` and is cleared
(`nergen.cxx` 271-274), then the rest of the body runs. -/
def boot_step (S : Services) (running : Bool) (st : BootState) (line : String) :
    Except (Run (String × List String)) BootState :=
  let st := if line = "<utt>" then { st with EOS_MARK := "<utt>" } else st
  let line := if line = "<utt>" then "" else line
  boot_body S running st line

/-- The `while` loop of `create_boot_file` over the lines of the input. -/
def boot_lines (S : Services) (running : Bool) :
    BootState → List String → Except (Run (String × List String)) BootState
  | st, [] => .ok st
  | st, line :: rest =>
    match boot_step S running st line with
    | .ok st => boot_lines S running st rest
    | .error r => .error r

/-- The statements after the loop (`nergen.cxx` 305-308). -/
def boot_end (S : Services) (st : BootState) : Run (String × List String) :=
  if st.blob ≠ "" then
    match boot_flush S st (S.split st.blob) with
    | .ok st => st.stop .done
    | .error r => r
  else st.stop .done

/-- The loop and the statements after it, from state `st`. -/
def boot_run (S : Services) (running : Bool) (st : BootState) (lines : List String) :
    Run (String × List String) :=
  match boot_lines S running st lines with
  | .ok st => boot_end S st
  | .error r => r

/-- The state in which the loop of `create_boot_file` starts. -/
def BootState.init : BootState := ⟨"\n", "", [], []⟩

/-- The function `create_boot_file` of `nergen.cxx` (262-309) on the input
lines `lines`. -/
def create_boot_file (S : Services) (running : Bool) (lines : List String) :
    Run (String × List String) :=
  boot_run S running BootState.init lines

/-! ## `enr_nergen.cxx` : writing one sentence -/

namespace Enr

/-- The function `spit_out` of `enr_nergen.cxx` (106-146): the loop of the
pass-through branch of `nergen.cxx`, without the `override` and `bootstrap`
arguments. -/
def spit_out (S : Services) (EOS_MARK : String) (tagv : List TagResult)
    (ner_file_tags : List String) : Option (List String) := do
  let words := tagv.map (fun tr => tr.word)
  let tags := tagv.map (fun tr => tr.assigned_tag)
  let ner_tags := S.create_ner_list words
  let recs ← spit_loop words tags ner_tags ner_file_tags words.length 0 "_" "_"
  some (recs ++ [eos_line EOS_MARK])

/-- The function `create_train_file` of `enr_nergen.cxx` (148-189): the loop
of `nergen.cxx` around the `spit_out` of this file. -/
def create_train_file (S : Services) (lines : List String) : Run Flush :=
  train_run S (spit_out S) TrainState.init lines

end Enr

/-! ## `nerv.cxx` -/

namespace Nerv

/-- How a run of `nerv` ends: the end of `main` is reached (`done`), the
input has no line (`empty_input`: message `empty input`, `exit(EXIT_FAILURE)`),
a blank line follows a blank line (`two_empty_lines`: message
`2 empty lines in a row! `, `exit(EXIT_FAILURE)`), or `parts` is read past its
end (`undefined`). -/
inductive Exit where
  | done
  | empty_input
  | two_empty_lines
  | undefined
  deriving DecidableEq, Repr

/-- What a run of `nerv` leaves behind: the lines written to `cout` and how the
run ended. -/
structure Run where
  out : List String
  exit : Exit
  deriving DecidableEq, Repr

/-- The variables of `main` between two iterations of its `while` loop, and
the lines written to `cout` so far. -/
structure State where
  word : String
  ner : String
  prev : String
  cur : String
  next : String
  out : List String
  deriving DecidableEq, Repr

/-- The `while ( getline( cin, line ) )` loop of `main` (`nerv.cxx` 21-52) on
the lines still to be read.  In the branch of a blank line the loop reads one
more line itself (`nerv.cxx` 27); when there is none it is left by `break`.
There the first update of the state is the output statement followed by
`prev = "_"` (`nerv.cxx` 25-26); in the branch of a token line it
is `next = parts[2]` followed by the output statement (`nerv.cxx` 44-45).  The
assignments `word = parts[0]; ner = parts[1]; prev = cur; cur = parts[2];`
with the assignment to `next` are one update of the state, in which `prev`
gets the old value of `cur`. -/
def loop (S : Services) : State → List String → Run
  | st, [] => ⟨st.out, .done⟩
  | st, line :: rest =>
    let parts := S.split_at line "\t"
    if parts.isEmpty then
      let st := { st with
        out := st.out ++
          [st.word ++ "\t" ++ "\t" ++ st.ner ++ "\t" ++ st.prev ++ "\t" ++ st.cur ++ "\t_", ""],
        prev := "_" }
      match rest with
      | [] => ⟨st.out, .done⟩
      | line2 :: rest2 =>
        let parts := S.split_at line2 "\t"
        if parts.isEmpty then ⟨st.out, .two_empty_lines⟩
        else
          match parts[0]?, parts[1]?, parts[2]? with
          | some p0, some p1, some p2 =>
            loop S { st with word := p0, ner := p1, prev := st.cur, cur := p2, next := "_" } rest2
          | _, _, _ => ⟨st.out, .undefined⟩
    else
      match parts[0]?, parts[1]?, parts[2]? with
      | some p0, some p1, some p2 =>
        let st := { st with
          next := p2,
          out := st.out ++
            [st.word ++ "\t" ++ "\t" ++ st.ner ++ "\t" ++ st.prev ++ "\t" ++ st.cur ++ "\t" ++ p2] }
        loop S { st with word := p0, ner := p1, prev := st.cur, cur := p2, next := "ERR" } rest
      | _, _, _ => ⟨st.out, .undefined⟩

/-- The function `main` of `nerv.cxx` on the lines of `cin`: the first line is
read and split before the loop (`nerv.cxx` 10-20), `prev` starts as `"_"` and
`next` as the empty string. -/
def main (S : Services) (input : List String) : Run :=
  match input with
  | [] => ⟨[], .empty_input⟩
  | line :: rest =>
    let parts := S.split_at line "\t"
    match parts[0]?, parts[1]?, parts[2]? with
    | some p0, some p1, some p2 => loop S ⟨p0, p1, "_", p2, "", []⟩ rest
    | _, _, _ => ⟨[], .undefined⟩

end Nerv

/-! ## A concrete instance of the services, for evaluating the code -/

/-- The maximal runs of characters of `s` that are not in `seps`. -/
def fields (seps : List Char) (s : String) : List String :=
  ((s.data.splitOnP (fun c => decide (c ∈ seps))).filter (fun f => !f.isEmpty)).map String.mk

/-- A small gazetteer: one label per word. -/
def demo_label (w : String) : String :=
  if w = "Jan" ∨ w = "de" ∨ w = "Wit" then "PER"
  else if w = "Utrecht" ∨ w = "Amsterdam" then "LOC"
  else if w = "Orange" then "LOC+ORG"
  else "O"

/-- An instance of `Services` on which the code can be run: fields are
separated at white space (`split`) or at the characters of the separator
(`split_at`, called with a one-character separator by the programs), empty
fields are skipped, the tagger gives every token of the blob the tag `N`,
and `merge_override` replaces a tag `O` by the override at the same position. -/
def demo : Services where
  split := fields [' ', '\r', '\t', '\n']
  split_at := fun src sep => fields sep.data src
  create_ner_list := fun words => words.map demo_label
  merge_override := fun tags overrides _ _ =>
    List.zipWith (fun t o => if t.1 = "O" then o else t) tags overrides
  TagLine := fun blob => (fields [' ', '\r', '\t', '\n'] blob).map (fun w => ⟨w, "N"⟩)

/-! ## Specification-side definitions -/

/-- The seven context fields of the feature record of token `i`: the word,
then previous / current / next POS tag, then previous / current / next
gazetteer tag, with `"_"` for the missing neighbour at either end of the
sentence. -/
def context_fields (w p g : List String) (i : Nat) : List String :=
  [ w.getD i "",
    if i = 0 then "_" else p.getD (i - 1) "",
    p.getD i "",
    if i + 1 = w.length then "_" else p.getD (i + 1) "",
    if i = 0 then "_" else g.getD (i - 1) "",
    g.getD i "",
    if i + 1 = w.length then "_" else g.getD (i + 1) "" ]

/-- The feature record of token `i` as the specification words it: the seven
context fields and the reference tag `o[i]`, joined by tabs. -/
def window_record (w p g o : List String) (i : Nat) : String :=
  String.intercalate "\t" (context_fields w p g i ++ [o.getD i ""])

/-- A line that ends a sentence: the empty line or the marker line `<utt>`. -/
def is_break (l : String) : Bool := decide (l = "" ∨ l = "<utt>")

/-- The maximal runs of consecutive token lines of the input: the input is
cut at every blank or marker line, and the empty pieces are dropped. -/
def token_runs (lines : List String) : List (List String) :=
  (lines.splitOnP is_break).filter (fun r => !r.isEmpty)

/-- The first field of a token line (the word). -/
def first_field (S : Services) (l : String) : String := (S.split l).getD 0 ""

/-- The second field of a token line (the corpus tag). -/
def second_field (S : Services) (l : String) : String := (S.split l).getD 1 ""

/-- The words `ws`, each followed by `sep`, in one string: the blob built for a
sentence (`sep` is `"\n"` in `create_train_file`, `" "` in `create_boot_file`). -/
def blob_of (sep : String) (ws : List String) : String :=
  ws.foldl (fun blob w => blob ++ (w ++ sep)) ""

/-- A line that is neither blank nor the marker and does not split into
exactly two fields. -/
def bad_line (S : Services) (l : String) : Bool :=
  !is_break l && decide ((S.split l).length ≠ 2)

/-- How a run in tagging mode has to end: with `DOOD` and the first bad line
of the input when there is one, normally otherwise. -/
def format_exit (S : Services) (lines : List String) : Exit :=
  match lines.find? (bad_line S) with
  | some l => .DOOD l
  | none => .done

/-- Modelled from the spec: the routine `TiCC::split` of ticcutils, which is
not under `src/`.  The one routine cuts the two columns of a token line
(`nergen.cxx` 249, 296), the blob that `create_boot_file` builds with a blank
after every word (`nergen.cxx` 277, 297, 306) and a line of running text,
"one sentence per line of space-separated words" (`nergen.cxx` 291): its
fields are the maximal runs of characters that are not white space (blank,
carriage return, tab, newline), empty fields being skipped. -/
def white_space_fields (s : String) : List String :=
  fields [' ', '\r', '\t', '\n'] s

/-- The tab-separated fields of a line: the maximal runs of characters other
than the tab. -/
def tab_fields (s : String) : List String :=
  fields ['\t'] s

/-- A line that is neither blank nor the marker and does not consist of
exactly two tab-separated fields. -/
def tab_bad_line (l : String) : Bool :=
  !is_break l && decide ((tab_fields l).length ≠ 2)

/-- How a run in tagging mode would have to end if the fields of a line were
its tab-separated fields: with `DOOD` and the first line without exactly two
tab-separated fields when there is one, normally otherwise. -/
def tab_format_exit (lines : List String) : Exit :=
  match lines.find? tab_bad_line with
  | some l => .DOOD l
  | none => .done

/-- A line that is neither blank nor the marker and does not consist of
exactly two fields separated by white space. -/
def white_space_bad_line (l : String) : Bool :=
  !is_break l && decide ((white_space_fields l).length ≠ 2)

/-- How a run in tagging mode has to end when fields are separated at white
space: with `DOOD` and the first line without exactly two such fields when
there is one, normally otherwise. -/
def white_space_exit (lines : List String) : Exit :=
  match lines.find? white_space_bad_line with
  | some l => .DOOD l
  | none => .done

/-- The tagger and the gazetteer fit the sentence made of the token lines `r`:
`TagLine` returns one result per token line and `create_ner_list` one tag per
word. -/
def tagger_fits (S : Services) (r : List String) : Prop :=
  (S.TagLine (blob_of "\n" (r.map (first_field S)))).length = r.length
    ∧ (S.create_ner_list ((S.TagLine (blob_of "\n" (r.map (first_field S)))).map
        (fun tr => tr.word))).length = r.length

/-- The gazetteer fits the words `words`: `create_ner_list` returns one label
per word, and every label splits at `+` into at least one part. -/
def gazetteer_fits (S : Services) (words : List String) : Prop :=
  (S.create_ner_list words).length = words.length
    ∧ ∀ l ∈ S.create_ner_list words, S.split_at l "+" ≠ []

/-! ## Lemmas on `spit_out` -/

theorem intercalate8 (a b c d e f g h : String) :
    String.intercalate "\t" [a, b, c, d, e, f, g, h] =
      a ++ "\t" ++ b ++ "\t" ++ c ++ "\t" ++ d ++ "\t" ++ e ++ "\t" ++ f ++ "\t" ++ g ++ "\t" ++ h := by
  simp [String.intercalate, String.intercalate.go, String.append_assoc]

theorem getElem?_eq_some_getD {α : Type} (l : List α) (i : Nat) (d : α) (h : i < l.length) :
    l[i]? = some (l.getD i d) := by
  simp [List.getD, List.getElem?_eq_getElem h]

theorem spit_loop_eq (w p g o : List String) (hp : p.length = w.length)
    (hg : g.length = w.length) (ho : o.length = w.length) :
    ∀ k i, i + k = w.length →
      spit_loop w p g o k i (if i = 0 then "_" else p.getD (i - 1) "")
          (if i = 0 then "_" else g.getD (i - 1) "") =
        some ((List.range' i k).map (window_record w p g o)) := by
  intro k
  induction k with
  | zero => intro i _; simp [spit_loop]
  | succ k ih =>
    intro i hik
    have hiw : i < w.length := by omega
    have hrec := ih (i + 1) (by omega)
    simp only [Nat.add_sub_cancel, Nat.succ_ne_zero, if_false] at hrec
    have hrec2 : spit_loop w p g o k (i + 1) (p.getD i "") (g.getD i "") =
        some ((List.range' (i + 1) k).map (window_record w p g o)) := by
      simpa using hrec
    rw [spit_loop, getElem?_eq_some_getD w i "" hiw, getElem?_eq_some_getD p i "" (by omega),
      getElem?_eq_some_getD g i "" (by omega), getElem?_eq_some_getD o i "" (by omega)]
    simp only [Option.bind_eq_bind, Option.some_bind, hrec2, List.range'_succ, List.map_cons]
    by_cases hlast : i < w.length - 1
    · have h1 : ¬ (i + 1 = w.length) := by omega
      simp only [if_pos hlast, getElem?_eq_some_getD p (i + 1) "" (by omega),
        getElem?_eq_some_getD g (i + 1) "" (by omega), Option.map_some', Option.some_bind,
        window_record, context_fields, List.cons_append, List.nil_append, intercalate8,
        if_neg h1, String.append_assoc]
    · have h1 : i + 1 = w.length := by omega
      have hu : "_\t" = "_" ++ "\t" := by decide
      simp only [if_neg hlast, Option.some_bind, window_record, context_fields, List.cons_append,
        List.nil_append, intercalate8, if_pos h1, hu,
        String.append_assoc]

theorem spit_loop_window (w p g o : List String) (hp : p.length = w.length)
    (hg : g.length = w.length) (ho : o.length = w.length) :
    spit_loop w p g o w.length 0 "_" "_" =
      some ((List.range w.length).map (window_record w p g o)) := by
  have h := spit_loop_eq w p g o hp hg ho w.length 0 (by omega)
  simpa [List.range_eq_range'] using h

/-- With `bootstrap = false`, `spit_out` writes the window records and the
closing line, for either value of `override`. -/
theorem spit_out_window (S : Services) (EOS_MARK : String) (tagv : List TagResult)
    (o : List String) (override : Bool)
    (hg : (S.create_ner_list (tagv.map (fun tr => tr.word))).length = tagv.length)
    (ho : o.length = tagv.length) :
    spit_out S EOS_MARK tagv o override false =
        some ((List.range tagv.length).map
            (window_record (tagv.map (fun tr => tr.word)) (tagv.map (fun tr => tr.assigned_tag))
              (S.create_ner_list (tagv.map (fun tr => tr.word))) o)
          ++ [eos_line EOS_MARK]) := by
  have h := spit_loop_window (tagv.map (fun tr => tr.word)) (tagv.map (fun tr => tr.assigned_tag))
    (S.create_ner_list (tagv.map (fun tr => tr.word))) o (by simp) (by simpa using hg)
    (by simpa using ho)
  simp only [List.length_map] at h
  simp [spit_out, h]

/-! ## C1 -/

/-- C1: in pass-through mode (`override = false`, `bootstrap = false`)
`spit_out` of `nergen.cxx`, and `spit_out` of `enr_nergen.cxx`, write for a
sentence of `n` tokens with words `w`, POS tags `p`, gazetteer tags
`g = create_ner_list w` and corpus tags `o` (all of length `n`) exactly the `n`
records `window_record w p g o i`, `i = 0 .. n-1`, in that order, followed by
the line that closes the sentence.  Record `i` has the eight tab-separated
fields `w[i]`, `p[i-1]` or `_`, `p[i]`, `p[i+1]` or `_`, `g[i-1]` or `_`,
`g[i]`, `g[i+1]` or `_`, `o[i]`; its last field is the corpus tag. -/
theorem spit_out_pass_through (S : Services) (EOS_MARK : String) (tagv : List TagResult)
    (o : List String)
    (hg : (S.create_ner_list (tagv.map (fun tr => tr.word))).length = tagv.length)
    (ho : o.length = tagv.length) :
    spit_out S EOS_MARK tagv o false false =
        some ((List.range tagv.length).map
            (window_record (tagv.map (fun tr => tr.word)) (tagv.map (fun tr => tr.assigned_tag))
              (S.create_ner_list (tagv.map (fun tr => tr.word))) o)
          ++ [eos_line EOS_MARK])
      ∧ Enr.spit_out S EOS_MARK tagv o =
        some ((List.range tagv.length).map
            (window_record (tagv.map (fun tr => tr.word)) (tagv.map (fun tr => tr.assigned_tag))
              (S.create_ner_list (tagv.map (fun tr => tr.word))) o)
          ++ [eos_line EOS_MARK]) := by
  have h := spit_loop_window (tagv.map (fun tr => tr.word)) (tagv.map (fun tr => tr.assigned_tag))
    (S.create_ner_list (tagv.map (fun tr => tr.word))) o (by simp) (by simpa using hg)
    (by simpa using ho)
  simp only [List.length_map] at h
  constructor
  · exact spit_out_window S EOS_MARK tagv o false hg ho
  · simp [Enr.spit_out, h]

/-- C1 at a one-token sentence: the four previous/next fields are `_` and the
last field is the corpus tag. -/
theorem spit_out_pass_through_witness :
    (demo.create_ner_list ([⟨"Amsterdam", "N"⟩].map (fun tr : TagResult => tr.word))).length
        = [(⟨"Amsterdam", "N"⟩ : TagResult)].length
      ∧ ["B-LOC"].length = [(⟨"Amsterdam", "N"⟩ : TagResult)].length
      ∧ spit_out demo "\n" [⟨"Amsterdam", "N"⟩] ["B-LOC"] false false
          = some ["Amsterdam\t_\tN\t_\t_\tLOC\t_\tB-LOC", ""] :=
  ⟨by decide, by decide,
    (spit_out_pass_through demo "\n" [⟨"Amsterdam", "N"⟩] ["B-LOC"] (by decide) (by decide)).1.trans
      (by decide)⟩

/-! ## C2, C3 : the `override` flag -/

/-- The value of `override` has no effect on what `spit_out` writes: the
result of `merge_override` is not used. -/
theorem spit_out_override_irrelevant (S : Services) (EOS_MARK : String) (tagv : List TagResult)
    (o : List String) (override bootstrap : Bool) :
    spit_out S EOS_MARK tagv o override bootstrap = spit_out S EOS_MARK tagv o false bootstrap := by
  simp [spit_out]

/-- C2: `spit_out` run with `override = true`, `bootstrap = false` on the
one-token sentence `Amsterdam` with corpus tag `O`, for which the gazetteer
gives `LOC`.  `merge_override` returns the filled-in tag `LOC`, but the record
that is written ends in the corpus tag `O`. -/
theorem spit_out_override_leaves_gap :
    demo.create_ner_list ["Amsterdam"] = ["LOC"]
      ∧ demo.merge_override [("O", 1)] [("LOC", 1)] false ["N"] = [("LOC", 1)]
      ∧ spit_out demo "\n" [⟨"Amsterdam", "N"⟩] ["O"] true false
          = some ["Amsterdam\t_\tN\t_\t_\tLOC\t_\tO", ""] := by
  refine ⟨by decide, by decide, by decide⟩

/-- C3: with `override = true` and `bootstrap = false`, whatever the
gazetteer tags and whatever `merge_override` computes, `spit_out` writes one
record per token and, at every position `i` whose corpus tag `o[i]` is not
`"O"`, record `i` is the seven context fields followed by `o[i]`: its last
field is the corpus tag. -/
theorem spit_out_override_keeps_label (S : Services) (EOS_MARK : String)
    (tagv : List TagResult) (o : List String)
    (hg : (S.create_ner_list (tagv.map (fun tr => tr.word))).length = tagv.length)
    (ho : o.length = tagv.length) :
    ∃ recs : List String,
      spit_out S EOS_MARK tagv o true false = some (recs ++ [eos_line EOS_MARK])
        ∧ recs.length = tagv.length
        ∧ ∀ i, i < tagv.length → o.getD i "" ≠ "O" →
            recs[i]? = some (String.intercalate "\t"
              (context_fields (tagv.map (fun tr => tr.word))
                  (tagv.map (fun tr => tr.assigned_tag))
                  (S.create_ner_list (tagv.map (fun tr => tr.word))) i
                ++ [o.getD i ""])) := by
  refine ⟨(List.range tagv.length).map
      (window_record (tagv.map (fun tr => tr.word)) (tagv.map (fun tr => tr.assigned_tag))
        (S.create_ner_list (tagv.map (fun tr => tr.word))) o), ?_, ?_, ?_⟩
  · exact spit_out_window S EOS_MARK tagv o true hg ho
  · simp
  · intro i hi _
    simp [hi, window_record]

/-- C3 on a two-token sentence whose corpus tags are `B-PER` and `O`, where
the gazetteer says `LOC` for the first token. -/
theorem spit_out_override_keeps_label_witness :
    ∃ recs : List String,
      spit_out demo "\n" [⟨"Amsterdam", "N"⟩, ⟨"zingt", "V"⟩] ["B-PER", "O"] true false
          = some (recs ++ [eos_line "\n"])
        ∧ recs.length = 2
        ∧ ∀ i, i < 2 → ["B-PER", "O"].getD i "" ≠ "O" →
            recs[i]? = some (String.intercalate "\t"
              (context_fields ["Amsterdam", "zingt"] ["N", "V"] ["LOC", "O"] i
                ++ [["B-PER", "O"].getD i ""])) :=
  spit_out_override_keeps_label demo "\n" [⟨"Amsterdam", "N"⟩, ⟨"zingt", "V"⟩] ["B-PER", "O"]
    (by decide) (by decide)

/-! ## Lemmas on `boot_out` -/

theorem to_tag_isSome (S : Services) (label : String) (h : S.split_at label "+" ≠ []) :
    ∃ tag, to_tag S label = some tag := by
  unfold to_tag
  cases hp : S.split_at label "+" with
  | nil => exact absurd hp h
  | cons a rest =>
    by_cases hl : (a :: rest).length > 1
    · exact ⟨"O", by simp only [hl, if_true]⟩
    · exact ⟨a, by simp only [hl, if_false, List.getElem?_cons_zero]⟩

/-- What one line written by the loop of `boot_out` looks like, given the word
and the tag `to_tag` resolved for it. -/
def boot_line_ok (w tag line : String) : Prop :=
  (tag = "O" ∧ line = w ++ "\t" ++ "O")
    ∨ (tag ≠ "O" ∧ (line = w ++ "\t" ++ "B-" ++ tag ∨ line = w ++ "\t" ++ "I-" ++ tag))

theorem boot_loop_lines (S : Services) (w g : List String) (hg : g.length = w.length)
    (hlab : ∀ l ∈ g, S.split_at l "+" ≠ []) :
    ∀ k i prev, i + k = w.length →
      ∃ L, boot_loop S w g k i prev = some L ∧ L.length = k ∧
        ∀ j, j < k → ∃ tag, to_tag S (g.getD (i + j) "") = some tag ∧
          boot_line_ok (w.getD (i + j) "") tag (L.getD j "") := by
  intro k
  induction k with
  | zero => intro i prev _; exact ⟨[], by simp [boot_loop]⟩
  | succ k ih =>
    intro i prev hik
    have hiw : i < w.length := by omega
    have hig : i < g.length := by omega
    have hmem : g.getD i "" ∈ g := by
      rw [List.getD_eq_getElem g "" hig]; exact List.getElem_mem hig
    obtain ⟨tag, htag⟩ := to_tag_isSome S (g.getD i "") (hlab _ hmem)
    obtain ⟨L, hL, hlen, hall⟩ := ih (i + 1) (if tag ≠ "O" then tag else prev) (by omega)
    refine ⟨((if tag ≠ "O" then (if tag = prev then w.getD i "" ++ "\t" ++ "I-"
        else w.getD i "" ++ "\t" ++ "B-") else w.getD i "" ++ "\t") ++ tag) :: L,
      ?_, by simp [hlen], ?_⟩
    · rw [boot_loop, getElem?_eq_some_getD w i "" hiw, getElem?_eq_some_getD g i "" hig]
      simp only [Option.bind_eq_bind, Option.some_bind, htag, hL]
    · intro j hj
      cases j with
      | zero =>
        refine ⟨tag, htag, ?_⟩
        simp only [Nat.add_zero, List.getD_cons_zero, boot_line_ok]
        by_cases hO : tag = "O"
        · left; simp [hO]
        · right
          refine ⟨hO, ?_⟩
          by_cases hp : tag = prev
          · right; rw [if_pos (show tag ≠ "O" from hO), if_pos hp]
          · left; rw [if_pos (show tag ≠ "O" from hO), if_neg hp]
      | succ j =>
        obtain ⟨t, ht, hok⟩ := hall j (by omega)
        refine ⟨t, ?_, ?_⟩
        · rw [← ht]; congr 2; omega
        · have : i + (j + 1) = i + 1 + j := by omega
          rw [this]; simpa using hok

/-! ## C5, C6 : `boot_out` -/

/-- C5: `boot_out` on the sentence `Jan en Wit`, whose gazetteer labels are
`PER`, `O`, `PER`.  The third word follows a word that was written with the
tag `O`, and is written with `I-PER`: `prev_tag` still holds `PER` from the
first word, because it is only assigned for a tag other than `O`. -/
theorem boot_out_continues_after_O :
    demo.create_ner_list ["Jan", "en", "Wit"] = ["PER", "O", "PER"]
      ∧ boot_out demo "\n" ["Jan", "en", "Wit"]
          = some ["Jan\tB-PER", "en\tO", "Wit\tI-PER", ""] := by
  refine ⟨by decide, by decide⟩

/-- C6: for a sentence of `n` words whose gazetteer labels all split at `+`
into at least one part, `boot_out` writes `n` token lines in word order and
then the closing line.  Line `i` is `words[i]`, a tab and one tag: the tag is
`O` when the label splits into two or more categories, `O` when the label is
the single part `O`, and `B-` or `I-` followed by the label when the label is
a single category other than `O`. -/
theorem boot_out_line_format (S : Services) (EOS_MARK : String) (words : List String)
    (hg : (S.create_ner_list words).length = words.length)
    (hlab : ∀ l ∈ S.create_ner_list words, S.split_at l "+" ≠ []) :
    ∃ lines : List String,
      boot_out S EOS_MARK words = some (lines ++ [eos_line EOS_MARK])
        ∧ lines.length = words.length
        ∧ ∀ i, i < words.length →
            ((S.split_at ((S.create_ner_list words).getD i "") "+").length > 1 →
                lines.getD i "" = words.getD i "" ++ "\t" ++ "O")
            ∧ (S.split_at ((S.create_ner_list words).getD i "") "+"
                  = [(S.create_ner_list words).getD i ""] →
                (S.create_ner_list words).getD i "" = "O" →
                lines.getD i "" = words.getD i "" ++ "\t" ++ "O")
            ∧ (S.split_at ((S.create_ner_list words).getD i "") "+"
                  = [(S.create_ner_list words).getD i ""] →
                (S.create_ner_list words).getD i "" ≠ "O" →
                (lines.getD i "" = words.getD i "" ++ "\t" ++ "B-"
                      ++ (S.create_ner_list words).getD i ""
                  ∨ lines.getD i "" = words.getD i "" ++ "\t" ++ "I-"
                      ++ (S.create_ner_list words).getD i "")) := by
  obtain ⟨L, hL, hlen, hall⟩ :=
    boot_loop_lines S words (S.create_ner_list words) hg hlab words.length 0 "" (by omega)
  refine ⟨L, by simp [boot_out, hL], hlen, ?_⟩
  intro i hi
  obtain ⟨tag, htag, hok⟩ := hall i hi
  simp only [Nat.zero_add] at htag hok
  refine ⟨?_, ?_, ?_⟩
  · intro hmany
    have ht : tag = "O" := by
      simp only [to_tag, hmany, if_true, Option.some.injEq] at htag
      exact htag.symm
    rcases hok with ⟨_, h⟩ | ⟨h, _⟩
    · exact h
    · exact absurd ht h
  · intro hone hO
    have ht : tag = "O" := by
      simp only [to_tag, hone, List.length_singleton, gt_iff_lt, Nat.lt_irrefl, if_false,
        List.getElem?_cons_zero, Option.some.injEq] at htag
      rw [← htag, hO]
    rcases hok with ⟨_, h⟩ | ⟨h, _⟩
    · exact h
    · exact absurd ht h
  · intro hone hO
    have ht : tag = (S.create_ner_list words).getD i "" := by
      simp only [to_tag, hone, List.length_singleton, gt_iff_lt, Nat.lt_irrefl, if_false,
        List.getElem?_cons_zero, Option.some.injEq] at htag
      exact htag.symm
    rw [← ht] at hO ⊢
    rcases hok with ⟨h, _⟩ | ⟨_, h⟩
    · exact absurd h hO
    · exact h

/-- C6 on the sentence `Jan de Wit woont in Utrecht`, whose gazetteer labels
are `PER PER PER O O LOC`. -/
theorem boot_out_line_format_witness :
    demo.create_ner_list ["Jan", "de", "Wit", "woont", "in", "Utrecht"]
        = ["PER", "PER", "PER", "O", "O", "LOC"]
      ∧ boot_out demo "\n" ["Jan", "de", "Wit", "woont", "in", "Utrecht"]
        = some ["Jan\tB-PER", "de\tI-PER", "Wit\tI-PER", "woont\tO", "in\tO", "Utrecht\tB-LOC", ""]
      ∧ ∃ lines : List String,
          boot_out demo "\n" ["Jan", "de", "Wit", "woont", "in", "Utrecht"]
              = some (lines ++ [eos_line "\n"])
            ∧ lines.length = 6 :=
  ⟨by decide, by decide,
    (boot_out_line_format demo "\n" ["Jan", "de", "Wit", "woont", "in", "Utrecht"]
      (by decide) (by decide)).imp (fun _ h => ⟨h.1, h.2.1⟩)⟩

/-! ## The shape of a sentence block -/

/-- A block of output lines written for one sentence under the marker
`EOS_MARK`: token lines, each holding a tab, and then the one closing line
`eos_line EOS_MARK`. -/
def is_block (EOS_MARK : String) (n : Nat) (out : List String) : Prop :=
  ∃ recs : List String, out = recs ++ [eos_line EOS_MARK] ∧ recs.length = n
    ∧ ∀ r ∈ recs, '\t' ∈ r.data

theorem spit_loop_tabs (w p g o : List String) :
    ∀ k i pP pN L, spit_loop w p g o k i pP pN = some L →
      L.length = k ∧ ∀ r ∈ L, '\t' ∈ r.data := by
  intro k
  induction k with
  | zero =>
    intro i pP pN L h
    simp only [spit_loop, Option.some.injEq] at h
    subst h; simp
  | succ k ih =>
    intro i pP pN L h
    rw [spit_loop] at h
    simp only [Option.bind_eq_bind, Option.bind_eq_some, Option.some.injEq] at h
    obtain ⟨w0, _, t0, _, l1, _, g0, _, l2, hl2, o0, _, rest, hrest, hL⟩ := h
    obtain ⟨hlen, htab⟩ := ih _ _ _ _ hrest
    subst hL
    refine ⟨by simp [hlen], ?_⟩
    intro r hr
    rcases List.mem_cons.1 hr with rfl | hr
    · by_cases hc : i < w.length - 1
      · simp only [if_pos hc, Option.map_eq_some'] at hl2
        obtain ⟨x, _, rfl⟩ := hl2
        simp
      · simp only [if_neg hc, Option.some.injEq] at hl2
        subst hl2
        have hu : "_\t" = "_" ++ "\t" := by decide
        simp [hu]
    · exact htab r hr

theorem spit_boot_loop_tabs (w o : List String) :
    ∀ k i L, spit_boot_loop w o k i = some L → L.length = k ∧ ∀ r ∈ L, '\t' ∈ r.data := by
  intro k
  induction k with
  | zero =>
    intro i L h
    simp only [spit_boot_loop, Option.some.injEq] at h
    subst h; simp
  | succ k ih =>
    intro i L h
    rw [spit_boot_loop] at h
    simp only [Option.bind_eq_bind, Option.bind_eq_some, Option.some.injEq] at h
    obtain ⟨w0, _, o0, _, rest, hrest, hL⟩ := h
    obtain ⟨hlen, htab⟩ := ih _ _ hrest
    subst hL
    refine ⟨by simp [hlen], ?_⟩
    intro r hr
    rcases List.mem_cons.1 hr with rfl | hr
    · simp
    · exact htab r hr

theorem boot_loop_tabs (S : Services) (w g : List String) :
    ∀ k i prev L, boot_loop S w g k i prev = some L → L.length = k ∧ ∀ r ∈ L, '\t' ∈ r.data := by
  intro k
  induction k with
  | zero =>
    intro i prev L h
    simp only [boot_loop, Option.some.injEq] at h
    subst h; simp
  | succ k ih =>
    intro i prev L h
    rw [boot_loop] at h
    simp only [Option.bind_eq_bind, Option.bind_eq_some, Option.some.injEq] at h
    obtain ⟨w0, _, g0, _, tag, _, rest, hrest, hL⟩ := h
    obtain ⟨hlen, htab⟩ := ih _ _ _ hrest
    subst hL
    refine ⟨by simp [hlen], ?_⟩
    intro r hr
    rcases List.mem_cons.1 hr with rfl | hr
    · by_cases h1 : tag ≠ "O"
      · by_cases h2 : tag = prev
        · rw [if_pos h1, if_pos h2]; simp
        · rw [if_pos h1, if_neg h2]; simp
      · rw [if_neg h1]; simp
    · exact htab r hr

/-- Whatever `spit_out` of `nergen.cxx` writes is one sentence block. -/
theorem spit_out_is_block (S : Services) (m : String) (tagv : List TagResult) (o : List String)
    (override bootstrap : Bool) (out : List String)
    (h : spit_out S m tagv o override bootstrap = some out) : is_block m tagv.length out := by
  simp only [spit_out, Option.bind_eq_bind, Option.bind_eq_some, Option.some.injEq] at h
  obtain ⟨recs, hrecs, rfl⟩ := h
  cases bootstrap with
  | true =>
    simp only [if_true] at hrecs
    obtain ⟨hlen, htab⟩ := spit_boot_loop_tabs _ _ _ _ _ hrecs
    exact ⟨recs, rfl, by simpa using hlen, htab⟩
  | false =>
    simp only [Bool.false_eq_true, if_false] at hrecs
    obtain ⟨hlen, htab⟩ := spit_loop_tabs _ _ _ _ _ _ _ _ _ hrecs
    exact ⟨recs, rfl, by simpa using hlen, htab⟩

/-- Whatever `spit_out` of `enr_nergen.cxx` writes is one sentence block. -/
theorem enr_spit_out_is_block (S : Services) (m : String) (tagv : List TagResult)
    (o : List String) (out : List String)
    (h : Enr.spit_out S m tagv o = some out) : is_block m tagv.length out := by
  simp only [Enr.spit_out, Option.bind_eq_bind, Option.bind_eq_some, Option.some.injEq] at h
  obtain ⟨recs, hrecs, rfl⟩ := h
  obtain ⟨hlen, htab⟩ := spit_loop_tabs _ _ _ _ _ _ _ _ _ hrecs
  exact ⟨recs, rfl, by simpa using hlen, htab⟩

/-- Whatever `boot_out` writes is one sentence block. -/
theorem boot_out_is_block (S : Services) (m : String) (words : List String) (out : List String)
    (h : boot_out S m words = some out) : is_block m words.length out := by
  simp only [boot_out, Option.bind_eq_bind, Option.bind_eq_some, Option.some.injEq] at h
  obtain ⟨recs, hrecs, rfl⟩ := h
  obtain ⟨hlen, htab⟩ := boot_loop_tabs _ _ _ _ _ _ _ hrecs
  exact ⟨recs, rfl, hlen, htab⟩

theorem spit_boot_loop_isSome (w o : List String) (ho : o.length = w.length) :
    ∀ k i, i + k = w.length → ∃ L, spit_boot_loop w o k i = some L := by
  intro k
  induction k with
  | zero => intro i _; exact ⟨[], rfl⟩
  | succ k ih =>
    intro i hik
    obtain ⟨L, hL⟩ := ih (i + 1) (by omega)
    refine ⟨(w.getD i "" ++ "\t" ++ o.getD i "") :: L, ?_⟩
    rw [spit_boot_loop, getElem?_eq_some_getD w i "" (by omega),
      getElem?_eq_some_getD o i "" (by omega)]
    simp only [Option.bind_eq_bind, Option.some_bind, hL]

/-! ## C10 -/

/-- C10: for every sentence, `spit_out` of `nergen.cxx` (for all values of
`override` and `bootstrap`), `spit_out` of `enr_nergen.cxx` and `boot_out`
write a block `recs ++ [eos_line EOS_MARK]`: the token lines of the sentence,
one per token and each holding a tab, and then exactly one more line.  That
line is the empty line for the default marker `"\n"` and the line `<utt>` for
the marker `<utt>`. -/
theorem one_closing_line (S : Services) (EOS_MARK : String) (tagv : List TagResult)
    (o words : List String) (override bootstrap : Bool)
    (hg : (S.create_ner_list (tagv.map (fun tr => tr.word))).length = tagv.length)
    (ho : o.length = tagv.length)
    (hgw : (S.create_ner_list words).length = words.length)
    (hlab : ∀ l ∈ S.create_ner_list words, S.split_at l "+" ≠ []) :
    (∃ out, spit_out S EOS_MARK tagv o override bootstrap = some out
        ∧ is_block EOS_MARK tagv.length out)
      ∧ (∃ out, Enr.spit_out S EOS_MARK tagv o = some out ∧ is_block EOS_MARK tagv.length out)
      ∧ (∃ out, boot_out S EOS_MARK words = some out ∧ is_block EOS_MARK words.length out)
      ∧ eos_line "\n" = "" ∧ eos_line "<utt>" = "<utt>" := by
  have h1 : ∃ out, spit_out S EOS_MARK tagv o override bootstrap = some out := by
    cases bootstrap with
    | false => exact ⟨_, spit_out_window S EOS_MARK tagv o override hg ho⟩
    | true =>
      obtain ⟨L, hL⟩ := spit_boot_loop_isSome (tagv.map (fun tr => tr.word)) o
        (by simpa using ho) (tagv.map (fun tr => tr.word)).length 0 (by omega)
      simp only [List.length_map] at hL
      exact ⟨L ++ [eos_line EOS_MARK], by simp [spit_out, hL]⟩
  have h2 : ∃ out, Enr.spit_out S EOS_MARK tagv o = some out := by
    have h := spit_loop_window (tagv.map (fun tr => tr.word))
      (tagv.map (fun tr => tr.assigned_tag))
      (S.create_ner_list (tagv.map (fun tr => tr.word))) o (by simp) (by simpa using hg)
      (by simpa using ho)
    simp only [List.length_map] at h
    exact ⟨(List.range tagv.length).map
      (window_record (tagv.map (fun tr => tr.word)) (tagv.map (fun tr => tr.assigned_tag))
        (S.create_ner_list (tagv.map (fun tr => tr.word))) o) ++ [eos_line EOS_MARK],
      by simp [Enr.spit_out, h]⟩
  have h3 : ∃ out, boot_out S EOS_MARK words = some out := by
    obtain ⟨L, hL, _⟩ :=
      boot_loop_lines S words (S.create_ner_list words) hgw hlab words.length 0 "" (by omega)
    exact ⟨L ++ [eos_line EOS_MARK], by simp [boot_out, hL]⟩
  obtain ⟨out1, ho1⟩ := h1
  obtain ⟨out2, ho2⟩ := h2
  obtain ⟨out3, ho3⟩ := h3
  exact ⟨⟨out1, ho1, spit_out_is_block S EOS_MARK tagv o override bootstrap out1 ho1⟩,
    ⟨out2, ho2, enr_spit_out_is_block S EOS_MARK tagv o out2 ho2⟩,
    ⟨out3, ho3, boot_out_is_block S EOS_MARK words out3 ho3⟩, by decide, by decide⟩

/-- C10 on the sentence `Jan zingt` with the marker `<utt>` active: each of
the three functions writes two token lines and the single line `<utt>`. -/
theorem one_closing_line_witness :
    (spit_out demo "<utt>" [⟨"Jan", "N"⟩, ⟨"zingt", "V"⟩] ["B-PER", "O"] true false
        = some ["Jan\t_\tN\tV\t_\tPER\tO\tB-PER", "zingt\tN\tV\t_\tPER\tO\t_\tO", "<utt>"]
      ∧ boot_out demo "<utt>" ["Jan", "zingt"] = some ["Jan\tB-PER", "zingt\tO", "<utt>"])
    ∧ ((∃ out, spit_out demo "<utt>" [⟨"Jan", "N"⟩, ⟨"zingt", "V"⟩] ["B-PER", "O"] true false
          = some out ∧ is_block "<utt>" 2 out)
      ∧ (∃ out, Enr.spit_out demo "<utt>" [⟨"Jan", "N"⟩, ⟨"zingt", "V"⟩] ["B-PER", "O"] = some out
          ∧ is_block "<utt>" 2 out)
      ∧ (∃ out, boot_out demo "<utt>" ["Jan", "zingt"] = some out ∧ is_block "<utt>" 2 out)
      ∧ eos_line "\n" = "" ∧ eos_line "<utt>" = "<utt>") :=
  ⟨⟨by decide, by decide⟩,
    one_closing_line demo "<utt>" [⟨"Jan", "N"⟩, ⟨"zingt", "V"⟩] ["B-PER", "O"] ["Jan", "zingt"]
      true false (by decide) (by decide) (by decide) (by decide)⟩

/-! ## The marker `<utt>` -/

/-- The output `b` extends the output `a` by sentence blocks that all close
with the line `<utt>`: token lines (each holding a tab) followed by `<utt>`,
block after block. -/
def utt_suffix (a b : List String) : Prop :=
  ∃ blocks : List (List String),
    b = a ++ (blocks.map (fun recs => recs ++ ["<utt>"])).flatten
      ∧ ∀ recs ∈ blocks, ∀ l ∈ recs, '\t' ∈ l.data

theorem utt_suffix_refl (a : List String) : utt_suffix a a :=
  ⟨[], by simp, by simp⟩

theorem utt_suffix_trans {a b c : List String} (h1 : utt_suffix a b) (h2 : utt_suffix b c) :
    utt_suffix a c := by
  obtain ⟨x, rfl, hx⟩ := h1
  obtain ⟨y, rfl, hy⟩ := h2
  refine ⟨x ++ y, by simp, ?_⟩
  intro recs hr
  rcases List.mem_append.1 hr with h | h
  · exact hx recs h
  · exact hy recs h

theorem utt_suffix_block {n : Nat} {out : List String} (a : List String)
    (h : is_block "<utt>" n out) : utt_suffix a (a ++ out) := by
  obtain ⟨recs, rfl, _, htab⟩ := h
  refine ⟨[recs], ?_, ?_⟩
  · have : eos_line "<utt>" = "<utt>" := by decide
    simp [this]
  · intro r hr
    simp only [List.mem_singleton] at hr
    subst hr; exact htab

/-- The property of `emit` used below: what it writes is a sentence block. -/
def emits_blocks (emit : String → List TagResult → List String → Option (List String)) : Prop :=
  ∀ m tagv tags out, emit m tagv tags = some out → is_block m tagv.length out

theorem train_flush_utt (S : Services)
    (emit : String → List TagResult → List String → Option (List String))
    (hemit : emits_blocks emit) (st : TrainState) (hm : st.EOS_MARK = "<utt>") :
    (∀ st1, train_flush S emit st = .ok st1 →
        st1.EOS_MARK = "<utt>" ∧ utt_suffix st.os st1.os ∧ st1.blob = st.blob
          ∧ st1.ner_file_tags = st.ner_file_tags)
      ∧ (∀ r, train_flush S emit st = .error r → r.EOS_MARK = "<utt>" ∧ utt_suffix st.os r.os) := by
  unfold train_flush
  cases he : emit st.EOS_MARK (S.TagLine st.blob) st.ner_file_tags with
  | none =>
    constructor
    · intro st1 h; cases h
    · intro r h
      simp only [Except.error.injEq] at h
      subst h
      exact ⟨hm, utt_suffix_refl _⟩
  | some out =>
    constructor
    · intro st1 h
      simp only [Except.ok.injEq] at h
      subst h
      have hb := hemit _ _ _ _ he
      rw [hm] at hb
      exact ⟨hm, utt_suffix_block _ hb, rfl, rfl⟩
    · intro r h; cases h

theorem train_body_utt (S : Services)
    (emit : String → List TagResult → List String → Option (List String))
    (hemit : emits_blocks emit) (st : TrainState) (line : String)
    (hm : st.EOS_MARK = "<utt>") :
    (∀ st1, train_body S emit st line = .ok st1 →
        st1.EOS_MARK = "<utt>" ∧ utt_suffix st.os st1.os)
      ∧ (∀ r, train_body S emit st line = .error r → r.EOS_MARK = "<utt>" ∧ utt_suffix st.os r.os) := by
  obtain ⟨hf1, hf2⟩ := train_flush_utt S emit hemit st hm
  unfold train_body
  by_cases hl : line = ""
  · rw [if_pos hl]
    by_cases hb : st.blob ≠ ""
    · rw [if_pos hb]
      cases hfl : train_flush S emit st with
      | ok st1 =>
        obtain ⟨h1, h2, _⟩ := hf1 st1 hfl
        constructor
        · intro st2 h
          simp only [Except.map, Except.ok.injEq] at h
          subst h; exact ⟨h1, h2⟩
        · intro r h; simp [Except.map] at h
      | error r =>
        constructor
        · intro st2 h; simp [Except.map] at h
        · intro r2 h
          simp only [Except.map, Except.error.injEq] at h
          subst h; exact hf2 r hfl
    · rw [if_neg hb]
      constructor
      · intro st1 h
        simp only [Except.ok.injEq] at h
        subst h; exact ⟨hm, utt_suffix_refl _⟩
      · intro r h; cases h
  · rw [if_neg hl]
    constructor
    · intro st1 h
      split at h
      · simp only [Except.ok.injEq] at h
        subst h; exact ⟨hm, utt_suffix_refl _⟩
      · cases h
    · intro r h
      split at h
      · cases h
      · simp only [Except.error.injEq] at h
        subst h; exact ⟨hm, utt_suffix_refl _⟩

theorem train_step_utt (S : Services)
    (emit : String → List TagResult → List String → Option (List String))
    (hemit : emits_blocks emit) (st : TrainState) (line : String)
    (hm : st.EOS_MARK = "<utt>" ∨ line = "<utt>") :
    (∀ st1, train_step S emit st line = .ok st1 →
        st1.EOS_MARK = "<utt>" ∧ utt_suffix st.os st1.os)
      ∧ (∀ r, train_step S emit st line = .error r → r.EOS_MARK = "<utt>" ∧ utt_suffix st.os r.os) := by
  unfold train_step
  by_cases hl : line = "<utt>"
  · simp only [hl, if_true]
    exact train_body_utt S emit hemit { st with EOS_MARK := "<utt>" } "" rfl
  · simp only [hl, if_false]
    exact train_body_utt S emit hemit st line (hm.resolve_right hl)

theorem train_run_cons (S : Services)
    (emit : String → List TagResult → List String → Option (List String))
    (st : TrainState) (line : String) (rest : List String) :
    train_run S emit st (line :: rest) =
      match train_step S emit st line with
      | .ok st1 => train_run S emit st1 rest
      | .error r => r := by
  simp only [train_run, train_lines]
  cases train_step S emit st line <;> rfl

theorem train_end_utt (S : Services)
    (emit : String → List TagResult → List String → Option (List String))
    (hemit : emits_blocks emit) (st : TrainState) (hm : st.EOS_MARK = "<utt>") :
    (train_end S emit st).EOS_MARK = "<utt>" ∧ utt_suffix st.os (train_end S emit st).os := by
  obtain ⟨hf1, hf2⟩ := train_flush_utt S emit hemit st hm
  unfold train_end
  by_cases hb : st.blob ≠ ""
  · rw [if_pos hb]
    cases hfl : train_flush S emit st with
    | ok st1 =>
      obtain ⟨h1, h2, _⟩ := hf1 st1 hfl
      exact ⟨h1, h2⟩
    | error r => exact hf2 r hfl
  · rw [if_neg hb]
    exact ⟨hm, utt_suffix_refl _⟩

theorem train_run_utt (S : Services)
    (emit : String → List TagResult → List String → Option (List String))
    (hemit : emits_blocks emit) :
    ∀ (lines : List String) (st : TrainState), st.EOS_MARK = "<utt>" →
      (train_run S emit st lines).EOS_MARK = "<utt>"
        ∧ utt_suffix st.os (train_run S emit st lines).os := by
  intro lines
  induction lines with
  | nil =>
    intro st hm
    exact train_end_utt S emit hemit st hm
  | cons line rest ih =>
    intro st hm
    obtain ⟨hs1, hs2⟩ := train_step_utt S emit hemit st line (Or.inl hm)
    rw [train_run_cons]
    cases hstep : train_step S emit st line with
    | ok st1 =>
      obtain ⟨h1, h2⟩ := hs1 st1 hstep
      obtain ⟨h3, h4⟩ := ih st1 h1
      exact ⟨h3, utt_suffix_trans h2 h4⟩
    | error r => exact hs2 r hstep

theorem train_run_append (S : Services)
    (emit : String → List TagResult → List String → Option (List String)) :
    ∀ (pre : List String) (st st1 : TrainState) (rest : List String),
      train_lines S emit st pre = .ok st1 →
        train_run S emit st (pre ++ rest) = train_run S emit st1 rest := by
  intro pre
  induction pre with
  | nil =>
    intro st st1 rest h
    simp only [train_lines, Except.ok.injEq] at h
    subst h; rfl
  | cons line pre ih =>
    intro st st1 rest h
    rw [List.cons_append, train_run_cons]
    rw [train_lines] at h
    cases hstep : train_step S emit st line with
    | ok st2 =>
      rw [hstep] at h
      exact ih st2 st1 rest h
    | error r =>
      rw [hstep] at h
      cases h

theorem append_piece_ne_empty (blob w sep : String) (hsep : sep ≠ "") :
    blob ++ (w ++ sep) ≠ "" := by
  intro h
  have hlen := congrArg String.length h
  simp only [String.length_append] at hlen
  have : sep.length ≠ 0 := by
    intro h0
    apply hsep
    cases sep with
    | mk d =>
      simp only [String.length, List.length_eq_zero] at h0
      subst h0; rfl
  have h0 : "".length = 0 := rfl
  omega

/-- The buffers of `create_train_file` are empty together. -/
def TrainState.tidy (st : TrainState) : Prop := st.blob = "" → st.ner_file_tags = []

theorem train_step_tidy (S : Services)
    (emit : String → List TagResult → List String → Option (List String))
    (st st1 : TrainState) (line : String) (ht : st.tidy)
    (h : train_step S emit st line = .ok st1) : st1.tidy := by
  have key : ∀ (st0 : TrainState) (l : String), st0.tidy →
      train_body S emit st0 l = .ok st1 → st1.tidy := by
    intro st0 l ht0 hb
    unfold train_body at hb
    by_cases hl : l = ""
    · rw [if_pos hl] at hb
      by_cases hbl : st0.blob ≠ ""
      · rw [if_pos hbl] at hb
        cases hfl : train_flush S emit st0 with
        | ok st2 =>
          simp only [hfl, Except.map, Except.ok.injEq] at hb
          subst hb
          intro _; rfl
        | error r => simp [hfl, Except.map] at hb
      · rw [if_neg hbl] at hb
        simp only [Except.ok.injEq] at hb
        subst hb; exact ht0
    · rw [if_neg hl] at hb
      split at hb
      · simp only [Except.ok.injEq] at hb
        subst hb
        intro hne
        exact absurd hne (append_piece_ne_empty _ _ _ (by decide))
      · cases hb
  unfold train_step at h
  by_cases hl : line = "<utt>"
  · simp only [hl, if_true] at h
    exact key { st with EOS_MARK := "<utt>" } "" ht h
  · simp only [hl, if_false] at h
    exact key st line ht h

theorem train_lines_tidy (S : Services)
    (emit : String → List TagResult → List String → Option (List String)) :
    ∀ (lines : List String) (st st1 : TrainState), st.tidy →
      train_lines S emit st lines = .ok st1 → st1.tidy := by
  intro lines
  induction lines with
  | nil =>
    intro st st1 ht h
    simp only [train_lines, Except.ok.injEq] at h
    subst h; exact ht
  | cons line rest ih =>
    intro st st1 ht h
    rw [train_lines] at h
    cases hstep : train_step S emit st line with
    | ok st2 =>
      rw [hstep] at h
      exact ih st2 st1 (train_step_tidy S emit st st2 line ht hstep) h
    | error r =>
      rw [hstep] at h
      cases h

theorem train_marker_step (S : Services)
    (emit : String → List TagResult → List String → Option (List String))
    (st st2 : TrainState) (ht : st.tidy) (h : train_step S emit st "<utt>" = .ok st2) :
    st2.blob = "" ∧ st2.ner_file_tags = [] := by
  simp only [train_step, if_true, train_body] at h
  by_cases hb : st.blob ≠ ""
  · rw [if_pos hb] at h
    unfold train_flush at h
    cases he : emit "<utt>" (S.TagLine st.blob) st.ner_file_tags with
    | none => simp [he, Except.map] at h
    | some out =>
      simp only [he, Except.map, Except.ok.injEq] at h
      subst h
      exact ⟨rfl, rfl⟩
  · rw [if_neg hb] at h
    simp only [Except.ok.injEq] at h
    subst h
    simp only [ne_eq, not_not] at hb
    exact ⟨hb, ht hb⟩

theorem boot_marker_step (S : Services) (running : Bool) (st st2 : BootState)
    (h : boot_step S running st "<utt>" = .ok st2) : st2.blob = "" := by
  simp only [boot_step, if_true, boot_body] at h
  by_cases hb : st.blob ≠ ""
  · rw [if_pos hb] at h
    unfold boot_flush at h
    cases he : boot_out S "<utt>" (S.split st.blob) with
    | none => simp [he, Except.map] at h
    | some out =>
      simp only [he, Except.map, Except.ok.injEq] at h
      subst h
      rfl
  · rw [if_neg hb] at h
    simp only [Except.ok.injEq] at h
    subst h
    simpa using hb

theorem train_marker_handed (S : Services)
    (emit : String → List TagResult → List String → Option (List String))
    (st st2 : TrainState) (h : train_step S emit st "<utt>" = .ok st2) :
    st2.handed = if st.blob = "" then st.handed
      else st.handed ++ [⟨"<utt>", st.blob, st.ner_file_tags⟩] := by
  simp only [train_step, if_true, train_body] at h
  by_cases hb : st.blob ≠ ""
  · rw [if_pos hb] at h
    unfold train_flush at h
    cases he : emit "<utt>" (S.TagLine st.blob) st.ner_file_tags with
    | none => simp [he, Except.map] at h
    | some out =>
      simp only [he, Except.map, Except.ok.injEq] at h
      subst h
      rw [if_neg hb]
  · rw [if_neg hb] at h
    simp only [Except.ok.injEq] at h
    subst h
    simp only [ne_eq, not_not] at hb
    rw [if_pos hb]

theorem boot_marker_handed (S : Services) (running : Bool) (st st2 : BootState)
    (h : boot_step S running st "<utt>" = .ok st2) :
    st2.handed = if st.blob = "" then st.handed
      else st.handed ++ [("<utt>", S.split st.blob)] := by
  simp only [boot_step, if_true, boot_body] at h
  by_cases hb : st.blob ≠ ""
  · rw [if_pos hb] at h
    unfold boot_flush at h
    cases he : boot_out S "<utt>" (S.split st.blob) with
    | none => simp [he, Except.map] at h
    | some out =>
      simp only [he, Except.map, Except.ok.injEq] at h
      subst h
      rw [if_neg hb]
  · rw [if_neg hb] at h
    simp only [Except.ok.injEq] at h
    subst h
    simp only [ne_eq, not_not] at hb
    rw [if_pos hb]

theorem boot_flush_utt (S : Services) (st : BootState) (words : List String)
    (hm : st.EOS_MARK = "<utt>") :
    (∀ st1, boot_flush S st words = .ok st1 →
        st1.EOS_MARK = "<utt>" ∧ utt_suffix st.os st1.os)
      ∧ (∀ r, boot_flush S st words = .error r → r.EOS_MARK = "<utt>" ∧ utt_suffix st.os r.os) := by
  unfold boot_flush
  cases he : boot_out S st.EOS_MARK words with
  | none =>
    constructor
    · intro st1 h; cases h
    · intro r h
      simp only [Except.error.injEq] at h
      subst h
      exact ⟨hm, utt_suffix_refl _⟩
  | some out =>
    constructor
    · intro st1 h
      simp only [Except.ok.injEq] at h
      subst h
      have hb := boot_out_is_block _ _ _ _ he
      rw [hm] at hb
      exact ⟨hm, utt_suffix_block _ hb⟩
    · intro r h; cases h

theorem boot_body_utt (S : Services) (running : Bool) (st : BootState) (line : String)
    (hm : st.EOS_MARK = "<utt>") :
    (∀ st1, boot_body S running st line = .ok st1 →
        st1.EOS_MARK = "<utt>" ∧ utt_suffix st.os st1.os)
      ∧ (∀ r, boot_body S running st line = .error r →
        r.EOS_MARK = "<utt>" ∧ utt_suffix st.os r.os) := by
  unfold boot_body
  by_cases hl : line = ""
  · rw [if_pos hl]
    by_cases hb : st.blob ≠ ""
    · rw [if_pos hb]
      obtain ⟨hf1, hf2⟩ := boot_flush_utt S st (S.split st.blob) hm
      cases hfl : boot_flush S st (S.split st.blob) with
      | ok st1 =>
        obtain ⟨h1, h2⟩ := hf1 st1 hfl
        constructor
        · intro st2 h
          simp only [Except.map, Except.ok.injEq] at h
          subst h; exact ⟨h1, h2⟩
        · intro r h; simp [Except.map] at h
      | error r =>
        constructor
        · intro st2 h; simp [Except.map] at h
        · intro r2 h
          simp only [Except.map, Except.error.injEq] at h
          subst h; exact hf2 r hfl
    · rw [if_neg hb]
      constructor
      · intro st1 h
        simp only [Except.ok.injEq] at h
        subst h; exact ⟨hm, utt_suffix_refl _⟩
      · intro r h; cases h
  · rw [if_neg hl]
    cases running with
    | true =>
      simp only [if_true]
      exact boot_flush_utt S st (S.split line) hm
    | false =>
      simp only [Bool.false_eq_true, if_false]
      constructor
      · intro st1 h
        split at h
        · simp only [Except.ok.injEq] at h
          subst h; exact ⟨hm, utt_suffix_refl _⟩
        · cases h
      · intro r h
        split at h
        · cases h
        · simp only [Except.error.injEq] at h
          subst h; exact ⟨hm, utt_suffix_refl _⟩

theorem boot_step_utt (S : Services) (running : Bool) (st : BootState) (line : String)
    (hm : st.EOS_MARK = "<utt>" ∨ line = "<utt>") :
    (∀ st1, boot_step S running st line = .ok st1 →
        st1.EOS_MARK = "<utt>" ∧ utt_suffix st.os st1.os)
      ∧ (∀ r, boot_step S running st line = .error r →
        r.EOS_MARK = "<utt>" ∧ utt_suffix st.os r.os) := by
  unfold boot_step
  by_cases hl : line = "<utt>"
  · simp only [hl, if_true]
    exact boot_body_utt S running { st with EOS_MARK := "<utt>" } "" rfl
  · simp only [hl, if_false]
    exact boot_body_utt S running st line (hm.resolve_right hl)

theorem boot_run_cons (S : Services) (running : Bool) (st : BootState) (line : String)
    (rest : List String) :
    boot_run S running st (line :: rest) =
      match boot_step S running st line with
      | .ok st1 => boot_run S running st1 rest
      | .error r => r := by
  simp only [boot_run, boot_lines]
  cases boot_step S running st line <;> rfl

theorem boot_end_utt (S : Services) (st : BootState) (hm : st.EOS_MARK = "<utt>") :
    (boot_end S st).EOS_MARK = "<utt>" ∧ utt_suffix st.os (boot_end S st).os := by
  obtain ⟨hf1, hf2⟩ := boot_flush_utt S st (S.split st.blob) hm
  unfold boot_end
  by_cases hb : st.blob ≠ ""
  · rw [if_pos hb]
    cases hfl : boot_flush S st (S.split st.blob) with
    | ok st1 => exact hf1 st1 hfl
    | error r => exact hf2 r hfl
  · rw [if_neg hb]
    exact ⟨hm, utt_suffix_refl _⟩

theorem boot_run_utt (S : Services) (running : Bool) :
    ∀ (lines : List String) (st : BootState), st.EOS_MARK = "<utt>" →
      (boot_run S running st lines).EOS_MARK = "<utt>"
        ∧ utt_suffix st.os (boot_run S running st lines).os := by
  intro lines
  induction lines with
  | nil =>
    intro st hm
    exact boot_end_utt S st hm
  | cons line rest ih =>
    intro st hm
    obtain ⟨hs1, hs2⟩ := boot_step_utt S running st line (Or.inl hm)
    rw [boot_run_cons]
    cases hstep : boot_step S running st line with
    | ok st1 =>
      obtain ⟨h1, h2⟩ := hs1 st1 hstep
      obtain ⟨h3, h4⟩ := ih st1 h1
      exact ⟨h3, utt_suffix_trans h2 h4⟩
    | error r => exact hs2 r hstep

theorem boot_run_append (S : Services) (running : Bool) :
    ∀ (pre : List String) (st st1 : BootState) (rest : List String),
      boot_lines S running st pre = .ok st1 →
        boot_run S running st (pre ++ rest) = boot_run S running st1 rest := by
  intro pre
  induction pre with
  | nil =>
    intro st st1 rest h
    simp only [boot_lines, Except.ok.injEq] at h
    subst h; rfl
  | cons line pre ih =>
    intro st st1 rest h
    rw [List.cons_append, boot_run_cons]
    rw [boot_lines] at h
    cases hstep : boot_step S running st line with
    | ok st2 =>
      rw [hstep] at h
      exact ih st2 st1 rest h
    | error r =>
      rw [hstep] at h
      cases h

theorem spit_out_emits_blocks (S : Services) (override : Bool) :
    emits_blocks (fun m tagv tags => spit_out S m tagv tags override false) :=
  fun m tagv tags out h => spit_out_is_block S m tagv tags override false out h

theorem enr_spit_out_emits_blocks (S : Services) : emits_blocks (Enr.spit_out S) :=
  fun m tagv tags out h => enr_spit_out_is_block S m tagv tags out h

theorem utt_suffix_no_empty {a b : List String} (h : utt_suffix a b) :
    "" ∉ b.drop a.length := by
  obtain ⟨blocks, rfl, htab⟩ := h
  simp only [List.drop_left]
  intro hmem
  simp only [List.mem_flatten, List.mem_map] at hmem
  obtain ⟨l, ⟨recs, hrecs, rfl⟩, hl⟩ := hmem
  rcases List.mem_append.1 hl with h1 | h1
  · have := htab recs hrecs "" h1
    simp at this
  · simp only [List.mem_singleton] at h1
    exact absurd h1 (by decide)

theorem train_run_marker (S : Services)
    (emit : String → List TagResult → List String → Option (List String))
    (hemit : emits_blocks emit) (st : TrainState) (post : List String) :
    (train_run S emit st ("<utt>" :: post)).EOS_MARK = "<utt>"
      ∧ utt_suffix st.os (train_run S emit st ("<utt>" :: post)).os := by
  obtain ⟨hs1, hs2⟩ := train_step_utt S emit hemit st "<utt>" (Or.inr rfl)
  rw [train_run_cons]
  cases hstep : train_step S emit st "<utt>" with
  | ok st1 =>
    obtain ⟨h1, h2⟩ := hs1 st1 hstep
    obtain ⟨h3, h4⟩ := train_run_utt S emit hemit post st1 h1
    exact ⟨h3, utt_suffix_trans h2 h4⟩
  | error r => exact hs2 r hstep

theorem boot_run_marker (S : Services) (running : Bool) (st : BootState) (post : List String) :
    (boot_run S running st ("<utt>" :: post)).EOS_MARK = "<utt>"
      ∧ utt_suffix st.os (boot_run S running st ("<utt>" :: post)).os := by
  obtain ⟨hs1, hs2⟩ := boot_step_utt S running st "<utt>" (Or.inr rfl)
  rw [boot_run_cons]
  cases hstep : boot_step S running st "<utt>" with
  | ok st1 =>
    obtain ⟨h1, h2⟩ := hs1 st1 hstep
    obtain ⟨h3, h4⟩ := boot_run_utt S running post st1 h1
    exact ⟨h3, utt_suffix_trans h2 h4⟩
  | error r => exact hs2 r hstep

/-! ## C9 -/

/-- C9: let the input be `pre ++ "<utt>" :: post`, and let the loop have read
`pre` without stopping.  Then, for `create_train_file` of both programs and
for `create_boot_file` (in either mode):
* the global `EOS_MARK` is `<utt>` when the run ends, however it ends;
* everything written after the lines written for `pre` is a sequence of
  sentence blocks, each made of token lines (lines holding a tab) closed by
  the line `<utt>`; no empty line is written;
* after the iteration that reads the marker line the sentence buffers are
  empty, and the only sentence that this iteration can hand on for output is
  the one that was in the buffers before the marker line was read (nothing
  when they were empty): the marker line is neither stored nor handed on as
  a token. -/
theorem eos_marker_persists (S : Services) (override running : Bool) (pre post : List String) :
    (∀ st, train_lines S (fun m tagv tags => spit_out S m tagv tags override false)
          TrainState.init pre = .ok st →
        (create_train_file S override (pre ++ "<utt>" :: post)).EOS_MARK = "<utt>"
          ∧ utt_suffix st.os (create_train_file S override (pre ++ "<utt>" :: post)).os
          ∧ "" ∉ (create_train_file S override (pre ++ "<utt>" :: post)).os.drop st.os.length
          ∧ ∀ st2, train_step S (fun m tagv tags => spit_out S m tagv tags override false)
              st "<utt>" = .ok st2 →
                st2.blob = "" ∧ st2.ner_file_tags = []
                  ∧ st2.handed = if st.blob = "" then st.handed
                      else st.handed ++ [⟨"<utt>", st.blob, st.ner_file_tags⟩])
      ∧ (∀ st, train_lines S (Enr.spit_out S) TrainState.init pre = .ok st →
        (Enr.create_train_file S (pre ++ "<utt>" :: post)).EOS_MARK = "<utt>"
          ∧ utt_suffix st.os (Enr.create_train_file S (pre ++ "<utt>" :: post)).os
          ∧ "" ∉ (Enr.create_train_file S (pre ++ "<utt>" :: post)).os.drop st.os.length
          ∧ ∀ st2, train_step S (Enr.spit_out S) st "<utt>" = .ok st2 →
              st2.blob = "" ∧ st2.ner_file_tags = []
                ∧ st2.handed = if st.blob = "" then st.handed
                    else st.handed ++ [⟨"<utt>", st.blob, st.ner_file_tags⟩])
      ∧ (∀ st, boot_lines S running BootState.init pre = .ok st →
        (create_boot_file S running (pre ++ "<utt>" :: post)).EOS_MARK = "<utt>"
          ∧ utt_suffix st.os (create_boot_file S running (pre ++ "<utt>" :: post)).os
          ∧ "" ∉ (create_boot_file S running (pre ++ "<utt>" :: post)).os.drop st.os.length
          ∧ ∀ st2, boot_step S running st "<utt>" = .ok st2 →
              st2.blob = ""
                ∧ st2.handed = if st.blob = "" then st.handed
                    else st.handed ++ [("<utt>", S.split st.blob)]) := by
  refine ⟨?_, ?_, ?_⟩
  · intro st hst
    have hrun := train_run_append S _ pre _ st ("<utt>" :: post) hst
    have hm := train_run_marker S _ (spit_out_emits_blocks S override) st post
    have htidy := train_lines_tidy S _ pre _ st (fun _ => rfl) hst
    simp only [create_train_file, hrun]
    exact ⟨hm.1, hm.2, utt_suffix_no_empty hm.2,
      fun st2 h => ⟨(train_marker_step S _ st st2 htidy h).1,
        (train_marker_step S _ st st2 htidy h).2, train_marker_handed S _ st st2 h⟩⟩
  · intro st hst
    have hrun := train_run_append S _ pre _ st ("<utt>" :: post) hst
    have hm := train_run_marker S _ (enr_spit_out_emits_blocks S) st post
    have htidy := train_lines_tidy S _ pre _ st (fun _ => rfl) hst
    simp only [Enr.create_train_file, hrun]
    exact ⟨hm.1, hm.2, utt_suffix_no_empty hm.2,
      fun st2 h => ⟨(train_marker_step S _ st st2 htidy h).1,
        (train_marker_step S _ st st2 htidy h).2, train_marker_handed S _ st st2 h⟩⟩
  · intro st hst
    have hrun := boot_run_append S running pre _ st ("<utt>" :: post) hst
    have hm := boot_run_marker S running st post
    simp only [create_boot_file, hrun]
    exact ⟨hm.1, hm.2, utt_suffix_no_empty hm.2,
      fun st2 h => ⟨boot_marker_step S running st st2 h,
        boot_marker_handed S running st st2 h⟩⟩

/-! ## Sentence segmentation -/

theorem token_runs_pending (cur : List String) (hcur : ∀ l ∈ cur, is_break l = false) :
    token_runs cur = if cur = [] then [] else [cur] := by
  unfold token_runs
  rw [List.splitOnP_eq_single is_break cur (by simpa using hcur)]
  cases cur <;> simp

theorem token_runs_break (cur : List String) (b : String) (rest : List String)
    (hcur : ∀ l ∈ cur, is_break l = false) (hb : is_break b = true) :
    token_runs (cur ++ b :: rest) = (if cur = [] then [] else [cur]) ++ token_runs rest := by
  unfold token_runs
  rw [List.splitOnP_first is_break cur (by simpa using hcur) b hb rest]
  cases cur <;> simp

theorem split_two {xs : List String} (h : xs.length = 2) : xs = [xs.getD 0 "", xs.getD 1 ""] := by
  match xs, h with
  | [a, b], _ => rfl

theorem blob_of_concat (sep : String) (ws : List String) (w : String) :
    blob_of sep (ws ++ [w]) = blob_of sep ws ++ (w ++ sep) := by
  simp [blob_of, List.foldl_append]

theorem blob_of_eq_empty (sep : String) (hsep : sep ≠ "") (ws : List String) :
    blob_of sep ws = "" ↔ ws = [] := by
  constructor
  · intro h
    rcases List.eq_nil_or_concat ws with h0 | ⟨init, w, rfl⟩
    · exact h0
    · rw [List.concat_eq_append, blob_of_concat] at h
      exact absurd h (append_piece_ne_empty _ _ _ hsep)
  · intro h; subst h; rfl

/-- The state after the test for the marker line. -/
def TrainState.mark (st : TrainState) (line : String) : TrainState :=
  if line = "<utt>" then { st with EOS_MARK := "<utt>" } else st

theorem train_mark_blob (st : TrainState) (line : String) :
    (st.mark line).blob = st.blob := by
  unfold TrainState.mark; split <;> rfl

theorem train_mark_tags (st : TrainState) (line : String) :
    (st.mark line).ner_file_tags = st.ner_file_tags := by
  unfold TrainState.mark; split <;> rfl

theorem train_mark_handed (st : TrainState) (line : String) :
    (st.mark line).handed = st.handed := by
  unfold TrainState.mark; split <;> rfl

theorem train_step_break (S : Services)
    (emit : String → List TagResult → List String → Option (List String))
    (st : TrainState) (line : String) (hb : is_break line = true) :
    train_step S emit st line =
      if st.blob ≠ "" then
        (train_flush S emit (st.mark line)).map
          (fun st => { st with blob := "", ner_file_tags := [] })
      else .ok (st.mark line) := by
  simp only [is_break, decide_eq_true_eq] at hb
  unfold train_step train_body TrainState.mark
  rcases hb with h | h
  · subst h
    have : ¬ ("" = "<utt>") := by decide
    simp only [this, if_false, if_true]
  · subst h
    simp only [if_true]

theorem train_step_good (S : Services)
    (emit : String → List TagResult → List String → Option (List String))
    (st : TrainState) (line : String) (hb : is_break line = false)
    (h2 : (S.split line).length = 2) :
    train_step S emit st line =
      .ok { st with blob := st.blob ++ (first_field S line ++ "\n"),
                    ner_file_tags := st.ner_file_tags ++ [second_field S line] } := by
  simp only [is_break, decide_eq_false_iff_not, not_or] at hb
  unfold train_step train_body first_field second_field
  simp only [hb.1, hb.2, if_false]
  generalize S.split line = xs at h2
  match xs, h2 with
  | [a, b], _ => rfl

theorem train_step_bad (S : Services)
    (emit : String → List TagResult → List String → Option (List String))
    (st : TrainState) (line : String) (hb : is_break line = false)
    (h2 : (S.split line).length ≠ 2) :
    train_step S emit st line = .error (st.stop (.DOOD line)) := by
  simp only [is_break, decide_eq_false_iff_not, not_or] at hb
  unfold train_step train_body
  simp only [hb.1, hb.2, if_false]
  generalize S.split line = xs at h2
  match xs, h2 with
  | [], _ => rfl
  | [_], _ => rfl
  | [_, _], h => exact absurd rfl h
  | _ :: _ :: _ :: _, _ => rfl

theorem train_flush_some (S : Services)
    (emit : String → List TagResult → List String → Option (List String))
    (st : TrainState) (out : List String)
    (h : emit st.EOS_MARK (S.TagLine st.blob) st.ner_file_tags = some out) :
    train_flush S emit st =
      .ok { st with os := st.os ++ out,
                    handed := st.handed ++ [⟨st.EOS_MARK, st.blob, st.ner_file_tags⟩] } := by
  unfold train_flush
  rw [h]

theorem format_exit_skip (S : Services) (l : String) (rest : List String)
    (h : bad_line S l = false) :
    format_exit S (l :: rest) = format_exit S rest
      ∧ ((l :: rest).find? (bad_line S) = none ↔ rest.find? (bad_line S) = none) := by
  simp [format_exit, List.find?_cons, h]

theorem format_exit_hit (S : Services) (l : String) (rest : List String)
    (h : bad_line S l = true) :
    format_exit S (l :: rest) = .DOOD l ∧ (l :: rest).find? (bad_line S) ≠ none := by
  simp [format_exit, List.find?_cons, h]

/-- The pair (blob, corpus tags) of a call. -/
def Flush.sentence (c : Flush) : String × List String := (c.blob, c.ner_file_tags)

/-- The pair (blob, corpus tags) that `create_train_file` builds from the token
lines `r`. -/
def train_sentence (S : Services) (r : List String) : String × List String :=
  (blob_of "\n" (r.map (first_field S)), r.map (second_field S))

/-- The state `st` holds the token lines `cur` in its buffers. -/
def TrainState.holds (S : Services) (st : TrainState) (cur : List String) : Prop :=
  (st.blob, st.ner_file_tags) = train_sentence S cur

theorem train_holds_blob_empty (S : Services) (st : TrainState) (cur : List String)
    (h : st.holds S cur) : st.blob = "" ↔ cur = [] := by
  have hb : st.blob = blob_of "\n" (cur.map (first_field S)) := congrArg Prod.fst h
  rw [hb, blob_of_eq_empty "\n" (by decide), List.map_eq_nil_iff]

/-- The precondition on `emit`: it is defined on every sentence `r` of the
list `runs` whose lines all split into two fields. -/
def emit_defined (S : Services)
    (emit : String → List TagResult → List String → Option (List String))
    (runs : List (List String)) : Prop :=
  ∀ r ∈ runs, (∀ l ∈ r, (S.split l).length = 2) →
    ∀ m, ∃ out, emit m (S.TagLine (train_sentence S r).1) (train_sentence S r).2 = some out

theorem train_flush_holds (S : Services)
    (emit : String → List TagResult → List String → Option (List String))
    (st : TrainState) (cur : List String) (hh : st.holds S cur)
    (hcur : ∀ l ∈ cur, is_break l = false ∧ (S.split l).length = 2)
    (hsafe : emit_defined S emit [cur]) :
    ∃ out, train_flush S emit st =
      .ok { st with os := st.os ++ out,
                    handed := st.handed ++ [⟨st.EOS_MARK, st.blob, st.ner_file_tags⟩] } := by
  obtain ⟨out, hout⟩ := hsafe cur (List.mem_singleton.2 rfl) (fun l hl => (hcur l hl).2)
    st.EOS_MARK
  have h1 : st.blob = (train_sentence S cur).1 := congrArg Prod.fst hh
  have h2 : st.ner_file_tags = (train_sentence S cur).2 := congrArg Prod.snd hh
  rw [← h1, ← h2] at hout
  exact ⟨out, train_flush_some S emit st out hout⟩

theorem train_run_nil (S : Services)
    (emit : String → List TagResult → List String → Option (List String)) (st : TrainState) :
    train_run S emit st [] = train_end S emit st := rfl

theorem train_run_segments (S : Services)
    (emit : String → List TagResult → List String → Option (List String)) :
    ∀ (lines cur : List String) (st : TrainState),
      (∀ l ∈ cur, is_break l = false ∧ (S.split l).length = 2) →
      st.holds S cur →
      emit_defined S emit (token_runs (cur ++ lines)) →
      (train_run S emit st lines).exit = format_exit S lines
        ∧ (lines.find? (bad_line S) = none →
            (train_run S emit st lines).handed.map Flush.sentence =
              st.handed.map Flush.sentence ++ (token_runs (cur ++ lines)).map (train_sentence S)) := by
  intro lines
  induction lines with
  | nil =>
    intro cur st hcur hh hsafe
    have hruns := token_runs_pending cur (fun l hl => (hcur l hl).1)
    rw [List.append_nil] at hsafe ⊢
    rw [hruns] at hsafe ⊢
    rw [train_run_nil]
    unfold train_end
    by_cases hc : cur = []
    · have hb : st.blob = "" := (train_holds_blob_empty S st cur hh).2 hc
      rw [if_neg (by simpa using hb), if_pos hc]
      exact ⟨rfl, fun _ => by simp [TrainState.stop]⟩
    · have hb : st.blob ≠ "" := fun h => hc ((train_holds_blob_empty S st cur hh).1 h)
      rw [if_neg hc] at hsafe
      obtain ⟨out, hfl⟩ := train_flush_holds S emit st cur hh hcur hsafe
      rw [if_pos hb, hfl, if_neg hc]
      refine ⟨rfl, fun _ => ?_⟩
      simp only [TrainState.stop, List.map_append, List.map_cons, List.map_nil, Flush.sentence]
      rw [hh]
  | cons line rest ih =>
    intro cur st hcur hh hsafe
    rw [train_run_cons]
    cases hbr : is_break line with
    | true =>
      have hnb : bad_line S line = false := by simp [bad_line, hbr]
      obtain ⟨hfe, hfind⟩ := format_exit_skip S line rest hnb
      have hruns := token_runs_break cur line rest (fun l hl => (hcur l hl).1) hbr
      rw [hfe, hfind, hruns, train_step_break S emit st line hbr]
      rw [hruns] at hsafe
      have hsafe_rest : emit_defined S emit (token_runs ([] ++ rest)) := by
        intro r hr
        exact hsafe r (List.mem_append_right _ (by simpa using hr))
      by_cases hc : cur = []
      · have hb : st.blob = "" := (train_holds_blob_empty S st cur hh).2 hc
        rw [if_neg (by simpa using hb), if_pos hc]
        have hh2 : (st.mark line).holds S [] := by
          unfold TrainState.holds
          rw [train_mark_blob, train_mark_tags, ← hc]
          exact hh
        have := ih [] (st.mark line) (by simp) hh2 hsafe_rest
        simpa [train_mark_handed] using this
      · have hb : st.blob ≠ "" := fun h => hc ((train_holds_blob_empty S st cur hh).1 h)
        rw [if_neg hc] at hsafe
        have hh2 : (st.mark line).holds S cur := by
          unfold TrainState.holds
          rw [train_mark_blob, train_mark_tags]
          exact hh
        obtain ⟨out, hfl⟩ := train_flush_holds S emit (st.mark line) cur hh2 hcur
          (fun r hr => hsafe r (List.mem_append_left _ hr))
        rw [if_pos hb, hfl, if_neg hc]
        simp only [Except.map]
        have := ih []
          { EOS_MARK := (st.mark line).EOS_MARK, blob := "", ner_file_tags := [],
            os := (st.mark line).os ++ out,
            handed := (st.mark line).handed ++
              [⟨(st.mark line).EOS_MARK, (st.mark line).blob, (st.mark line).ner_file_tags⟩] }
          (by simp) rfl hsafe_rest
        simp only [List.nil_append] at this
        refine ⟨this.1, fun hnone => ?_⟩
        rw [this.2 hnone]
        simp only [train_mark_handed, train_mark_blob, train_mark_tags,
          List.map_append, List.map_cons, List.map_nil, Flush.sentence, List.append_assoc,
          List.singleton_append]
        rw [hh]
    | false =>
      by_cases h2 : (S.split line).length = 2
      · have hnb : bad_line S line = false := by simp [bad_line, hbr, h2]
        obtain ⟨hfe, hfind⟩ := format_exit_skip S line rest hnb
        rw [hfe, hfind, train_step_good S emit st line hbr h2]
        have happ : cur ++ line :: rest = (cur ++ [line]) ++ rest := by simp
        rw [happ] at hsafe ⊢
        have hb : st.blob = (train_sentence S cur).1 := congrArg Prod.fst hh
        have ht : st.ner_file_tags = (train_sentence S cur).2 := congrArg Prod.snd hh
        exact ih (cur ++ [line])
          { st with blob := st.blob ++ (first_field S line ++ "\n"),
                    ner_file_tags := st.ner_file_tags ++ [second_field S line] }
          (by
            intro l hl
            rcases List.mem_append.1 hl with h | h
            · exact hcur l h
            · simp only [List.mem_singleton] at h
              subst h; exact ⟨hbr, h2⟩)
          (by
            unfold TrainState.holds
            simp only [train_sentence, List.map_append, List.map_cons, List.map_nil,
              blob_of_concat]
            rw [hb, ht]
            rfl)
          hsafe
      · have hbad : bad_line S line = true := by simp [bad_line, hbr, h2]
        obtain ⟨hfe, hfind⟩ := format_exit_hit S line rest hbad
        rw [train_step_bad S emit st line hbr h2, hfe]
        exact ⟨rfl, fun hnone => absurd hnone hfind⟩

/-- The lines written for one call: the result of `emit` on its arguments
(nothing when the call reads a vector past its end). -/
def train_block (S : Services)
    (emit : String → List TagResult → List String → Option (List String)) (c : Flush) :
    List String :=
  (emit c.EOS_MARK (S.TagLine c.blob) c.ner_file_tags).getD []

theorem train_flush_os (S : Services)
    (emit : String → List TagResult → List String → Option (List String))
    (st : TrainState) (hos : st.os = (st.handed.map (train_block S emit)).flatten) :
    (∀ st1, train_flush S emit st = .ok st1 →
        st1.os = (st1.handed.map (train_block S emit)).flatten)
      ∧ (∀ r, train_flush S emit st = .error r →
        r.os = (r.handed.map (train_block S emit)).flatten) := by
  unfold train_flush
  cases he : emit st.EOS_MARK (S.TagLine st.blob) st.ner_file_tags with
  | none =>
    constructor
    · intro st1 h; cases h
    · intro r h
      simp only [Except.error.injEq] at h
      subst h
      simp [TrainState.stop, train_block, he, hos]
  | some out =>
    constructor
    · intro st1 h
      simp only [Except.ok.injEq] at h
      subst h
      simp [train_block, he, hos]
    · intro r h; cases h

theorem train_step_os (S : Services)
    (emit : String → List TagResult → List String → Option (List String))
    (st : TrainState) (line : String)
    (hos : st.os = (st.handed.map (train_block S emit)).flatten) :
    (∀ st1, train_step S emit st line = .ok st1 →
        st1.os = (st1.handed.map (train_block S emit)).flatten)
      ∧ (∀ r, train_step S emit st line = .error r →
        r.os = (r.handed.map (train_block S emit)).flatten) := by
  have key : ∀ (st0 : TrainState) (l : String),
      st0.os = (st0.handed.map (train_block S emit)).flatten →
      (∀ st1, train_body S emit st0 l = .ok st1 →
          st1.os = (st1.handed.map (train_block S emit)).flatten)
        ∧ (∀ r, train_body S emit st0 l = .error r →
          r.os = (r.handed.map (train_block S emit)).flatten) := by
    intro st0 l h0
    obtain ⟨hf1, hf2⟩ := train_flush_os S emit st0 h0
    unfold train_body
    by_cases hl : l = ""
    · rw [if_pos hl]
      by_cases hb : st0.blob ≠ ""
      · rw [if_pos hb]
        cases hfl : train_flush S emit st0 with
        | ok st1 =>
          constructor
          · intro st2 h
            simp only [Except.map, Except.ok.injEq] at h
            subst h; exact hf1 st1 hfl
          · intro r h; simp [Except.map] at h
        | error r =>
          constructor
          · intro st2 h; simp [Except.map] at h
          · intro r2 h
            simp only [Except.map, Except.error.injEq] at h
            subst h; exact hf2 r hfl
      · rw [if_neg hb]
        constructor
        · intro st1 h
          simp only [Except.ok.injEq] at h
          subst h; exact h0
        · intro r h; cases h
    · rw [if_neg hl]
      constructor
      · intro st1 h
        split at h
        · simp only [Except.ok.injEq] at h
          subst h; exact h0
        · cases h
      · intro r h
        split at h
        · cases h
        · simp only [Except.error.injEq] at h
          subst h; exact h0
  unfold train_step
  by_cases hl : line = "<utt>"
  · simp only [hl, if_true]
    exact key { st with EOS_MARK := "<utt>" } "" hos
  · simp only [hl, if_false]
    exact key st line hos

theorem train_run_os (S : Services)
    (emit : String → List TagResult → List String → Option (List String)) :
    ∀ (lines : List String) (st : TrainState),
      st.os = (st.handed.map (train_block S emit)).flatten →
      (train_run S emit st lines).os =
        ((train_run S emit st lines).handed.map (train_block S emit)).flatten := by
  intro lines
  induction lines with
  | nil =>
    intro st hos
    obtain ⟨hf1, hf2⟩ := train_flush_os S emit st hos
    rw [train_run_nil]
    unfold train_end
    by_cases hb : st.blob ≠ ""
    · rw [if_pos hb]
      cases hfl : train_flush S emit st with
      | ok st1 => exact hf1 st1 hfl
      | error r => exact hf2 r hfl
    · rw [if_neg hb]; exact hos
  | cons line rest ih =>
    intro st hos
    obtain ⟨hs1, hs2⟩ := train_step_os S emit st line hos
    rw [train_run_cons]
    cases hstep : train_step S emit st line with
    | ok st1 => exact ih st1 (hs1 st1 hstep)
    | error r => exact hs2 r hstep

theorem find_bad_none (S : Services) (lines : List String)
    (h2 : ∀ l ∈ lines, l ≠ "" → l ≠ "<utt>" → (S.split l).length = 2) :
    lines.find? (bad_line S) = none := by
  rw [List.find?_eq_none]
  intro l hl
  by_cases hb : is_break l = true
  · simp [bad_line, hb]
  · have hb2 : is_break l = false := by simpa using hb
    simp only [is_break, decide_eq_false_iff_not, not_or] at hb2
    simp [bad_line, h2 l hl hb2.1 hb2.2]

theorem tagger_fits_spit_out (S : Services) (override : Bool) (r : List String)
    (h : tagger_fits S r) (m : String) :
    ∃ out, spit_out S m (S.TagLine (train_sentence S r).1) (train_sentence S r).2 override false
      = some out := by
  obtain ⟨h1, h2⟩ := h
  exact ⟨_, spit_out_window S m _ _ override (by simp only [train_sentence]; rw [h2, h1])
    (by simp only [train_sentence, List.length_map]; rw [h1])⟩

theorem enr_spit_out_window (S : Services) (EOS_MARK : String) (tagv : List TagResult)
    (o : List String)
    (hg : (S.create_ner_list (tagv.map (fun tr => tr.word))).length = tagv.length)
    (ho : o.length = tagv.length) :
    Enr.spit_out S EOS_MARK tagv o =
        some ((List.range tagv.length).map
            (window_record (tagv.map (fun tr => tr.word)) (tagv.map (fun tr => tr.assigned_tag))
              (S.create_ner_list (tagv.map (fun tr => tr.word))) o)
          ++ [eos_line EOS_MARK]) := by
  have h := spit_loop_window (tagv.map (fun tr => tr.word)) (tagv.map (fun tr => tr.assigned_tag))
    (S.create_ner_list (tagv.map (fun tr => tr.word))) o (by simp) (by simpa using hg)
    (by simpa using ho)
  simp only [List.length_map] at h
  simp [Enr.spit_out, h]

theorem tagger_fits_enr_spit_out (S : Services) (r : List String)
    (h : tagger_fits S r) (m : String) :
    ∃ out, Enr.spit_out S m (S.TagLine (train_sentence S r).1) (train_sentence S r).2
      = some out := by
  obtain ⟨h1, h2⟩ := h
  exact ⟨_, enr_spit_out_window S m _ _ (by simp only [train_sentence]; rw [h2, h1])
    (by simp only [train_sentence, List.length_map]; rw [h1])⟩

theorem token_runs_ne_nil (lines : List String) : ∀ r ∈ token_runs lines, r ≠ [] := by
  intro r hr
  simp only [token_runs, List.mem_filter] at hr
  intro h
  subst h
  simp at hr

instance (S : Services) (r : List String) : Decidable (tagger_fits S r) := by
  unfold tagger_fits; infer_instance

instance (S : Services) (words : List String) : Decidable (gazetteer_fits S words) := by
  unfold gazetteer_fits; infer_instance

/-! ## C7 -/

/-- C7: let every line of the input that is neither blank nor the marker
split into exactly two fields, and let the tagger return one result per
token line of every sentence (and the gazetteer one tag per word).  Then
`create_train_file` (of `nergen.cxx` and of `enr_nergen.cxx`) returns
normally, and the sentences it hands on to `TagLine` and `spit_out` are, in
input order, exactly the maximal runs of consecutive token lines of the
input: run `r` is handed on as the blob of the first fields of its lines
(each followed by a newline) with the second fields as corpus tags, in line
order.  None of these sentences is empty, and the output file is the
concatenation of what `spit_out` wrote for them. -/
theorem train_sentences_are_token_runs (S : Services) (override : Bool) (lines : List String)
    (h2 : ∀ l ∈ lines, l ≠ "" → l ≠ "<utt>" → (S.split l).length = 2)
    (hfit : ∀ r ∈ token_runs lines, tagger_fits S r) :
    ((create_train_file S override lines).exit = .done
        ∧ (create_train_file S override lines).handed.map Flush.sentence
            = (token_runs lines).map (train_sentence S)
        ∧ (create_train_file S override lines).os
            = ((create_train_file S override lines).handed.map
                (train_block S (fun m tagv tags => spit_out S m tagv tags override false))).flatten)
      ∧ ((Enr.create_train_file S lines).exit = .done
        ∧ (Enr.create_train_file S lines).handed.map Flush.sentence
            = (token_runs lines).map (train_sentence S)
        ∧ (Enr.create_train_file S lines).os
            = ((Enr.create_train_file S lines).handed.map
                (train_block S (Enr.spit_out S))).flatten)
      ∧ ∀ r ∈ token_runs lines, r ≠ [] := by
  have hnone := find_bad_none S lines h2
  have hexit : format_exit S lines = .done := by simp [format_exit, hnone]
  refine ⟨?_, ?_, token_runs_ne_nil lines⟩
  · have h := train_run_segments S (fun m tagv tags => spit_out S m tagv tags override false)
      lines [] TrainState.init (by simp) rfl
      (fun r hr _ m => tagger_fits_spit_out S override r (hfit r (by simpa using hr)) m)
    refine ⟨h.1.trans hexit, ?_, train_run_os S _ lines TrainState.init rfl⟩
    simpa [TrainState.init] using h.2 hnone
  · have h := train_run_segments S (Enr.spit_out S) lines [] TrainState.init (by simp) rfl
      (fun r hr _ m => tagger_fits_enr_spit_out S r (hfit r (by simpa using hr)) m)
    refine ⟨h.1.trans hexit, ?_, train_run_os S _ lines TrainState.init rfl⟩
    simpa [TrainState.init] using h.2 hnone

/-- C7 on an input of three sentences, separated by two blank lines, by a
marker line and by the end of the input. -/
theorem train_sentences_are_token_runs_witness :
    token_runs ["Jan\tB-PER", "zingt\tO", "", "", "Wit\tO", "<utt>", "in\tO"]
        = [["Jan\tB-PER", "zingt\tO"], ["Wit\tO"], ["in\tO"]]
      ∧ (create_train_file demo false
          ["Jan\tB-PER", "zingt\tO", "", "", "Wit\tO", "<utt>", "in\tO"]).exit = .done
      ∧ (create_train_file demo false
          ["Jan\tB-PER", "zingt\tO", "", "", "Wit\tO", "<utt>", "in\tO"]).handed.map Flush.sentence
        = [("Jan\nzingt\n", ["B-PER", "O"]), ("Wit\n", ["O"]), ("in\n", ["O"])] :=
  ⟨by decide,
    (train_sentences_are_token_runs demo false
      ["Jan\tB-PER", "zingt\tO", "", "", "Wit\tO", "<utt>", "in\tO"]
      (by decide) (by decide)).1.1,
    (train_sentences_are_token_runs demo false
      ["Jan\tB-PER", "zingt\tO", "", "", "Wit\tO", "<utt>", "in\tO"]
      (by decide) (by decide)).1.2.1.trans (by decide)⟩

/-! ## The loop of `create_boot_file` -/

/-- The state after the test for the marker line. -/
def BootState.mark (st : BootState) (line : String) : BootState :=
  if line = "<utt>" then { st with EOS_MARK := "<utt>" } else st

theorem boot_mark_blob (st : BootState) (line : String) :
    (st.mark line).blob = st.blob := by
  unfold BootState.mark; split <;> rfl

theorem boot_mark_handed (st : BootState) (line : String) :
    (st.mark line).handed = st.handed := by
  unfold BootState.mark; split <;> rfl

theorem boot_step_break (S : Services) (running : Bool) (st : BootState) (line : String)
    (hb : is_break line = true) :
    boot_step S running st line =
      if st.blob ≠ "" then
        (boot_flush S (st.mark line) (S.split st.blob)).map (fun st => { st with blob := "" })
      else .ok (st.mark line) := by
  simp only [is_break, decide_eq_true_eq] at hb
  unfold boot_step boot_body BootState.mark
  rcases hb with h | h
  · subst h
    have : ¬ ("" = "<utt>") := by decide
    simp only [this, if_false, if_true]
  · subst h
    simp only [if_true]

theorem boot_step_good (S : Services) (st : BootState) (line : String)
    (hb : is_break line = false) (h2 : (S.split line).length = 2) :
    boot_step S false st line = .ok { st with blob := st.blob ++ (first_field S line ++ " ") } := by
  simp only [is_break, decide_eq_false_iff_not, not_or] at hb
  unfold boot_step boot_body first_field
  simp only [hb.1, hb.2, if_false, Bool.false_eq_true]
  generalize S.split line = xs at h2
  match xs, h2 with
  | [a, b], _ => rfl

theorem boot_step_bad (S : Services) (st : BootState) (line : String)
    (hb : is_break line = false) (h2 : (S.split line).length ≠ 2) :
    boot_step S false st line = .error (st.stop (.DOOD line)) := by
  simp only [is_break, decide_eq_false_iff_not, not_or] at hb
  unfold boot_step boot_body
  simp only [hb.1, hb.2, if_false, Bool.false_eq_true]
  generalize S.split line = xs at h2
  match xs, h2 with
  | [], _ => rfl
  | [_], _ => rfl
  | [_, _], h => exact absurd rfl h
  | _ :: _ :: _ :: _, _ => rfl

theorem boot_out_isSome (S : Services) (m : String) (words : List String)
    (h : gazetteer_fits S words) : ∃ out, boot_out S m words = some out := by
  obtain ⟨L, hL, _⟩ :=
    boot_loop_lines S words (S.create_ner_list words) h.1 h.2 words.length 0 "" (by omega)
  exact ⟨L ++ [eos_line m], by simp [boot_out, hL]⟩

theorem boot_flush_some (S : Services) (st : BootState) (words : List String)
    (h : gazetteer_fits S words) :
    ∃ out, boot_flush S st words =
      .ok { st with os := st.os ++ out, handed := st.handed ++ [(st.EOS_MARK, words)] } := by
  obtain ⟨out, hout⟩ := boot_out_isSome S st.EOS_MARK words h
  exact ⟨out, by unfold boot_flush; rw [hout]⟩

/-- The words that `create_boot_file` (two-column input) hands to `boot_out`
for the token lines `r`: the blob of the first fields, each followed by a
blank, split again. -/
def boot_words (S : Services) (r : List String) : List String :=
  S.split (blob_of " " (r.map (first_field S)))

theorem boot_run_nil (S : Services) (running : Bool) (st : BootState) :
    boot_run S running st [] = boot_end S st := rfl

theorem boot_run_segments (S : Services) :
    ∀ (lines cur : List String) (st : BootState),
      (∀ l ∈ cur, is_break l = false ∧ (S.split l).length = 2) →
      st.blob = blob_of " " (cur.map (first_field S)) →
      (∀ r ∈ token_runs (cur ++ lines), (∀ l ∈ r, (S.split l).length = 2) →
          gazetteer_fits S (boot_words S r)) →
      (boot_run S false st lines).exit = format_exit S lines
        ∧ (lines.find? (bad_line S) = none →
            (boot_run S false st lines).handed.map Prod.snd =
              st.handed.map Prod.snd ++ (token_runs (cur ++ lines)).map (boot_words S)) := by
  intro lines
  induction lines with
  | nil =>
    intro cur st hcur hh hsafe
    have hruns := token_runs_pending cur (fun l hl => (hcur l hl).1)
    rw [List.append_nil] at hsafe ⊢
    rw [hruns] at hsafe ⊢
    rw [boot_run_nil]
    unfold boot_end
    have hbe : st.blob = "" ↔ cur = [] := by
      rw [hh, blob_of_eq_empty " " (by decide), List.map_eq_nil_iff]
    by_cases hc : cur = []
    · have hb : st.blob = "" := hbe.2 hc
      rw [if_neg (by simpa using hb), if_pos hc]
      exact ⟨rfl, fun _ => by simp [BootState.stop]⟩
    · have hb : st.blob ≠ "" := fun h => hc (hbe.1 h)
      rw [if_neg hc] at hsafe
      have hfit := hsafe cur (List.mem_singleton.2 rfl) (fun l hl => (hcur l hl).2)
      unfold boot_words at hfit
      rw [← hh] at hfit
      obtain ⟨out, hfl⟩ := boot_flush_some S st (S.split st.blob) hfit
      rw [if_pos hb, hfl, if_neg hc]
      refine ⟨rfl, fun _ => ?_⟩
      simp only [BootState.stop, List.map_append, List.map_cons, List.map_nil, boot_words]
      rw [hh]
  | cons line rest ih =>
    intro cur st hcur hh hsafe
    rw [boot_run_cons]
    have hbe : st.blob = "" ↔ cur = [] := by
      rw [hh, blob_of_eq_empty " " (by decide), List.map_eq_nil_iff]
    cases hbr : is_break line with
    | true =>
      have hnb : bad_line S line = false := by simp [bad_line, hbr]
      obtain ⟨hfe, hfind⟩ := format_exit_skip S line rest hnb
      have hruns := token_runs_break cur line rest (fun l hl => (hcur l hl).1) hbr
      rw [hfe, hfind, hruns, boot_step_break S false st line hbr]
      rw [hruns] at hsafe
      have hsafe_rest : ∀ r ∈ token_runs ([] ++ rest), (∀ l ∈ r, (S.split l).length = 2) →
          gazetteer_fits S (boot_words S r) := by
        intro r hr
        exact hsafe r (List.mem_append_right _ (by simpa using hr))
      by_cases hc : cur = []
      · have hb : st.blob = "" := hbe.2 hc
        rw [if_neg (by simpa using hb), if_pos hc]
        have := ih [] (st.mark line) (by simp) (by rw [boot_mark_blob, hb]; rfl) hsafe_rest
        simpa [boot_mark_handed] using this
      · have hb : st.blob ≠ "" := fun h => hc (hbe.1 h)
        rw [if_neg hc] at hsafe
        have hfit := hsafe cur (List.mem_append_left _ (List.mem_singleton.2 rfl))
          (fun l hl => (hcur l hl).2)
        unfold boot_words at hfit
        rw [← hh] at hfit
        obtain ⟨out, hfl⟩ := boot_flush_some S (st.mark line) (S.split st.blob) hfit
        rw [if_pos hb, hfl, if_neg hc]
        simp only [Except.map]
        have := ih []
          { EOS_MARK := (st.mark line).EOS_MARK, blob := "",
            os := (st.mark line).os ++ out,
            handed := (st.mark line).handed ++ [((st.mark line).EOS_MARK, S.split st.blob)] }
          (by simp) rfl hsafe_rest
        simp only [List.nil_append] at this
        refine ⟨this.1, fun hnone => ?_⟩
        rw [this.2 hnone]
        simp only [boot_mark_handed, List.map_append, List.map_cons, List.map_nil,
          List.append_assoc, List.singleton_append, boot_words]
        rw [hh]
    | false =>
      by_cases h2 : (S.split line).length = 2
      · have hnb : bad_line S line = false := by simp [bad_line, hbr, h2]
        obtain ⟨hfe, hfind⟩ := format_exit_skip S line rest hnb
        rw [hfe, hfind, boot_step_good S st line hbr h2]
        have happ : cur ++ line :: rest = (cur ++ [line]) ++ rest := by simp
        rw [happ] at hsafe ⊢
        exact ih (cur ++ [line]) { st with blob := st.blob ++ (first_field S line ++ " ") }
          (by
            intro l hl
            rcases List.mem_append.1 hl with h | h
            · exact hcur l h
            · simp only [List.mem_singleton] at h
              subst h; exact ⟨hbr, h2⟩)
          (by
            simp only [List.map_append, List.map_cons, List.map_nil, blob_of_concat]
            rw [hh])
          hsafe
      · have hbad : bad_line S line = true := by simp [bad_line, hbr, h2]
        obtain ⟨hfe, hfind⟩ := format_exit_hit S line rest hbad
        rw [boot_step_bad S st line hbr h2, hfe]
        exact ⟨rfl, fun hnone => absurd hnone hfind⟩

theorem format_exit_DOOD_iff (S : Services) (lines : List String) (l : String) :
    format_exit S lines = .DOOD l ↔ lines.find? (bad_line S) = some l := by
  unfold format_exit
  cases h : lines.find? (bad_line S) with
  | none => simp
  | some x => simp

theorem format_exit_aborts_iff (S : Services) (lines : List String) :
    (∃ l, format_exit S lines = .DOOD l) ↔ ∃ l ∈ lines, bad_line S l = true := by
  constructor
  · rintro ⟨l, hl⟩
    rw [format_exit_DOOD_iff] at hl
    exact ⟨l, List.mem_of_find?_eq_some hl, List.find?_some hl⟩
  · rintro ⟨l, hl, hbad⟩
    cases h : lines.find? (bad_line S) with
    | none =>
      rw [List.find?_eq_none] at h
      exact absurd hbad (h l hl)
    | some x => exact ⟨x, (format_exit_DOOD_iff S lines x).2 h⟩

/-! ## C8 -/

theorem format_exit_white_space (S : Services) (hs : S.split = white_space_fields)
    (lines : List String) : format_exit S lines = white_space_exit lines := by
  have hb : bad_line S = white_space_bad_line := by
    funext l
    simp only [bad_line, white_space_bad_line, hs]
  simp only [format_exit, white_space_exit, hb]

/-! ### The claim fails as stated -/

/-- C8 as stated is false: the fields that decide are not the tab-separated
ones.  The line `New York<tab>B-LOC` has exactly two tab-separated fields, so
by the claim the run returns, but `TiCC::split` cuts it into three fields and
both `create_train_file` and `create_boot_file` stop with `DOOD` and this
line.  The line `Jan B-PER` (a blank, no tab) is a single tab-separated
field, so by the claim the run stops with it, but `TiCC::split` cuts it into
two fields and both functions return. -/
theorem format_error_not_by_tab_fields :
    (tab_fields "New York\tB-LOC" = ["New York", "B-LOC"]
        ∧ demo.split "New York\tB-LOC" = ["New", "York", "B-LOC"]
        ∧ tab_format_exit ["New York\tB-LOC"] = .done
        ∧ (create_train_file demo false ["New York\tB-LOC"]).exit = .DOOD "New York\tB-LOC"
        ∧ (create_boot_file demo false ["New York\tB-LOC"]).exit = .DOOD "New York\tB-LOC")
      ∧ (tab_fields "Jan B-PER" = ["Jan B-PER"]
        ∧ demo.split "Jan B-PER" = ["Jan", "B-PER"]
        ∧ tab_format_exit ["Jan B-PER"] = .DOOD "Jan B-PER"
        ∧ (create_train_file demo false ["Jan B-PER"]).exit = .done
        ∧ (create_boot_file demo false ["Jan B-PER"]).exit = .done)
      ∧ (create_train_file demo false ["New York\tB-LOC"]).exit
          ≠ tab_format_exit ["New York\tB-LOC"]
      ∧ (create_train_file demo false ["Jan B-PER"]).exit ≠ tab_format_exit ["Jan B-PER"] := by
  refine ⟨⟨by decide, by decide, by decide, by decide, by decide⟩,
    ⟨by decide, by decide, by decide, by decide, by decide⟩, by decide, by decide⟩

/-! ### The claim as amended -/

/-- C8, amended: in tagging mode the run ends with the diagnostic
`DOOD: line` and `exit(EXIT_FAILURE)` exactly when the input has a line that
is neither empty nor the marker and that `TiCC::split` does not split into
exactly two fields, and the line echoed is the first such line of the input;
otherwise the function returns.  The fields are those of `TiCC::split`: when
it separates at white space (blank, carriage return, tab, newline), the
offending lines are the lines without exactly two fields separated by white
space, not the lines without exactly two tab-separated fields.  This holds
for `create_train_file` of both programs and for `create_boot_file` with
`running = false`, on every input on whose well-formed sentences the tagger
returns one result per token line and the gazetteer one resolvable label per
word (so that no vector is read past its end before the bad line is
reached). -/
theorem format_error_iff (S : Services) (override : Bool) (lines : List String)
    (htag : ∀ r ∈ token_runs lines, (∀ l ∈ r, (S.split l).length = 2) → tagger_fits S r)
    (hgaz : ∀ r ∈ token_runs lines, (∀ l ∈ r, (S.split l).length = 2) →
      gazetteer_fits S (boot_words S r)) :
    (create_train_file S override lines).exit = format_exit S lines
      ∧ (Enr.create_train_file S lines).exit = format_exit S lines
      ∧ (create_boot_file S false lines).exit = format_exit S lines
      ∧ ((∃ l, format_exit S lines = .DOOD l) ↔ ∃ l ∈ lines, bad_line S l = true)
      ∧ (∀ l, format_exit S lines = .DOOD l ↔ lines.find? (bad_line S) = some l)
      ∧ (S.split = white_space_fields →
          (create_train_file S override lines).exit = white_space_exit lines
            ∧ (Enr.create_train_file S lines).exit = white_space_exit lines
            ∧ (create_boot_file S false lines).exit = white_space_exit lines
            ∧ ((∃ l, white_space_exit lines = .DOOD l)
                ↔ ∃ l ∈ lines, white_space_bad_line l = true)
            ∧ ∀ l, white_space_exit lines = .DOOD l
                ↔ lines.find? white_space_bad_line = some l) := by
  have h1 : (create_train_file S override lines).exit = format_exit S lines :=
    (train_run_segments S (fun m tagv tags => spit_out S m tagv tags override false)
      lines [] TrainState.init (by simp) rfl
      (fun r hr hwf m =>
        tagger_fits_spit_out S override r (htag r (by simpa using hr) hwf) m)).1
  have h2 : (Enr.create_train_file S lines).exit = format_exit S lines :=
    (train_run_segments S (Enr.spit_out S) lines [] TrainState.init (by simp) rfl
      (fun r hr hwf m => tagger_fits_enr_spit_out S r (htag r (by simpa using hr) hwf) m)).1
  have h3 : (create_boot_file S false lines).exit = format_exit S lines :=
    (boot_run_segments S lines [] BootState.init (by simp) rfl
      (fun r hr hwf => hgaz r (by simpa using hr) hwf)).1
  refine ⟨h1, h2, h3, format_exit_aborts_iff S lines, format_exit_DOOD_iff S lines, ?_⟩
  intro hs
  have he := format_exit_white_space S hs lines
  have hb : bad_line S = white_space_bad_line := by
    funext l
    simp only [bad_line, white_space_bad_line, hs]
  refine ⟨h1.trans he, h2.trans he, h3.trans he, ?_, ?_⟩
  · rw [← he, ← hb]
    exact format_exit_aborts_iff S lines
  · intro l
    rw [← he, ← hb]
    exact format_exit_DOOD_iff S lines l

/-- C8 amended, on an input whose third line has three fields and whose
fourth line has one: the run stops at the third line.  On the input
`Jan B-PER`, `New York<tab>B-LOC` the first line has two fields separated by a
blank and is accepted, and the run stops at the second line, which has
three. -/
theorem format_error_iff_witness :
    (create_train_file demo false ["Jan\tB-PER", "", "Wit\tB-PER\tx", "in", ""]).exit
        = .DOOD "Wit\tB-PER\tx"
      ∧ (create_boot_file demo false ["Jan\tB-PER", "", "Wit\tB-PER\tx", "in", ""]).exit
        = .DOOD "Wit\tB-PER\tx"
      ∧ (create_train_file demo false ["Jan\tB-PER", "", "Wit\tB-PER"]).exit = .done
      ∧ demo.split = white_space_fields
      ∧ (create_train_file demo false ["Jan B-PER", "New York\tB-LOC"]).exit
        = .DOOD "New York\tB-LOC" :=
  ⟨(format_error_iff demo false ["Jan\tB-PER", "", "Wit\tB-PER\tx", "in", ""]
      (by decide) (by decide)).1.trans (by decide),
    (format_error_iff demo false ["Jan\tB-PER", "", "Wit\tB-PER\tx", "in", ""]
      (by decide) (by decide)).2.2.1.trans (by decide),
    (format_error_iff demo false ["Jan\tB-PER", "", "Wit\tB-PER"]
      (by decide) (by decide)).1.trans (by decide),
    rfl,
    ((format_error_iff demo false ["Jan B-PER", "New York\tB-LOC"]
      (by decide) (by decide)).2.2.2.2.2 rfl).1.trans (by decide)⟩

/-! ## C4 -/

/-- Two input lines that are equal, or that are both token lines of two
fields with the same first field. -/
def same_but_tag (S : Services) (a b : String) : Prop :=
  a = b ∨ (is_break a = false ∧ is_break b = false ∧ (S.split a).length = 2
    ∧ (S.split b).length = 2 ∧ first_field S a = first_field S b)

theorem boot_step_same (S : Services) (st : BootState) (a b : String)
    (h : same_but_tag S a b) : boot_step S false st a = boot_step S false st b := by
  rcases h with h | ⟨ha, hb, ha2, hb2, hf⟩
  · rw [h]
  · rw [boot_step_good S st a ha ha2, boot_step_good S st b hb hb2, hf]

theorem boot_lines_same (S : Services) (l1 l2 : List String)
    (h : List.Forall₂ (same_but_tag S) l1 l2) :
    ∀ st, boot_lines S false st l1 = boot_lines S false st l2 := by
  induction h with
  | nil => intro st; rfl
  | cons hab _ ih =>
    intro st
    rw [boot_lines, boot_lines, boot_step_same S st _ _ hab]
    cases boot_step S false st _ with
    | ok st1 => exact ih st1
    | error r => rfl

/-- The lines written for one call of `boot_out`. -/
def boot_block (S : Services) (c : String × List String) : List String :=
  (boot_out S c.1 c.2).getD []

theorem boot_flush_os (S : Services) (st : BootState) (words : List String)
    (hos : st.os = (st.handed.map (boot_block S)).flatten) :
    (∀ st1, boot_flush S st words = .ok st1 → st1.os = (st1.handed.map (boot_block S)).flatten)
      ∧ (∀ r, boot_flush S st words = .error r →
        r.os = (r.handed.map (boot_block S)).flatten) := by
  unfold boot_flush
  cases he : boot_out S st.EOS_MARK words with
  | none =>
    constructor
    · intro st1 h; cases h
    · intro r h
      simp only [Except.error.injEq] at h
      subst h
      simp [BootState.stop, boot_block, he, hos]
  | some out =>
    constructor
    · intro st1 h
      simp only [Except.ok.injEq] at h
      subst h
      simp [boot_block, he, hos]
    · intro r h; cases h

theorem boot_step_os (S : Services) (running : Bool) (st : BootState) (line : String)
    (hos : st.os = (st.handed.map (boot_block S)).flatten) :
    (∀ st1, boot_step S running st line = .ok st1 →
        st1.os = (st1.handed.map (boot_block S)).flatten)
      ∧ (∀ r, boot_step S running st line = .error r →
        r.os = (r.handed.map (boot_block S)).flatten) := by
  have key : ∀ (st0 : BootState) (l : String),
      st0.os = (st0.handed.map (boot_block S)).flatten →
      (∀ st1, boot_body S running st0 l = .ok st1 →
          st1.os = (st1.handed.map (boot_block S)).flatten)
        ∧ (∀ r, boot_body S running st0 l = .error r →
          r.os = (r.handed.map (boot_block S)).flatten) := by
    intro st0 l h0
    unfold boot_body
    by_cases hl : l = ""
    · rw [if_pos hl]
      by_cases hb : st0.blob ≠ ""
      · rw [if_pos hb]
        obtain ⟨hf1, hf2⟩ := boot_flush_os S st0 (S.split st0.blob) h0
        cases hfl : boot_flush S st0 (S.split st0.blob) with
        | ok st1 =>
          constructor
          · intro st2 h
            simp only [Except.map, Except.ok.injEq] at h
            subst h; exact hf1 st1 hfl
          · intro r h; simp [Except.map] at h
        | error r =>
          constructor
          · intro st2 h; simp [Except.map] at h
          · intro r2 h
            simp only [Except.map, Except.error.injEq] at h
            subst h; exact hf2 r hfl
      · rw [if_neg hb]
        constructor
        · intro st1 h
          simp only [Except.ok.injEq] at h
          subst h; exact h0
        · intro r h; cases h
    · rw [if_neg hl]
      cases running with
      | true =>
        simp only [if_true]
        exact boot_flush_os S st0 (S.split l) h0
      | false =>
        simp only [Bool.false_eq_true, if_false]
        constructor
        · intro st1 h
          split at h
          · simp only [Except.ok.injEq] at h
            subst h; exact h0
          · cases h
        · intro r h
          split at h
          · cases h
          · simp only [Except.error.injEq] at h
            subst h; exact h0
  unfold boot_step
  by_cases hl : line = "<utt>"
  · simp only [hl, if_true]
    exact key { st with EOS_MARK := "<utt>" } "" hos
  · simp only [hl, if_false]
    exact key st line hos

theorem boot_run_os (S : Services) (running : Bool) :
    ∀ (lines : List String) (st : BootState),
      st.os = (st.handed.map (boot_block S)).flatten →
      (boot_run S running st lines).os =
        ((boot_run S running st lines).handed.map (boot_block S)).flatten := by
  intro lines
  induction lines with
  | nil =>
    intro st hos
    obtain ⟨hf1, hf2⟩ := boot_flush_os S st (S.split st.blob) hos
    rw [boot_run_nil]
    unfold boot_end
    by_cases hb : st.blob ≠ ""
    · rw [if_pos hb]
      cases hfl : boot_flush S st (S.split st.blob) with
      | ok st1 => exact hf1 st1 hfl
      | error r => exact hf2 r hfl
    · rw [if_neg hb]; exact hos
  | cons line rest ih =>
    intro st hos
    obtain ⟨hs1, hs2⟩ := boot_step_os S running st line hos
    rw [boot_run_cons]
    cases hstep : boot_step S running st line with
    | ok st1 => exact ih st1 (hs1 st1 hstep)
    | error r => exact hs2 r hstep

/-- C4: two two-column inputs with the same lines in the same positions,
except that token lines (two fields each) may differ in their second field,
make `create_boot_file` with `running = false` end in the same way with the
same output file (and the same history and marker).  The output is the
concatenation of what `boot_out` writes for the word lists handed to it, and
`boot_out` takes the words, not the corpus tags. -/
theorem boot_ignores_corpus_tags (S : Services) (lines1 lines2 : List String)
    (h : List.Forall₂ (same_but_tag S) lines1 lines2) :
    create_boot_file S false lines1 = create_boot_file S false lines2
      ∧ (create_boot_file S false lines1).os
          = ((create_boot_file S false lines1).handed.map (boot_block S)).flatten := by
  refine ⟨?_, boot_run_os S false lines1 BootState.init rfl⟩
  unfold create_boot_file boot_run
  rw [boot_lines_same S lines1 lines2 h]

/-- C4 on two inputs that differ in the tags of their three token lines. -/
theorem boot_ignores_corpus_tags_witness :
    create_boot_file demo false ["Jan\tB-PER", "zingt\tO", "", "Utrecht\tB-LOC"]
        = create_boot_file demo false ["Jan\tO", "zingt\tB-MISC", "", "Utrecht\tO"]
      ∧ (create_boot_file demo false ["Jan\tB-PER", "zingt\tO", "", "Utrecht\tB-LOC"]).os
        = ["Jan\tB-PER", "zingt\tO", "", "Utrecht\tB-LOC", ""] :=
  ⟨(boot_ignores_corpus_tags demo
      ["Jan\tB-PER", "zingt\tO", "", "Utrecht\tB-LOC"]
      ["Jan\tO", "zingt\tB-MISC", "", "Utrecht\tO"]
      (.cons (Or.inr (by decide)) (.cons (Or.inr (by decide)) (.cons (Or.inl rfl)
        (.cons (Or.inr (by decide)) .nil))))).1,
    by decide⟩

/-- C9 on an input whose first sentence ends at a blank line and whose
marker line ends the second sentence: the separator written before the
marker is read is the empty line, all later ones are `<utt>`. -/
theorem eos_marker_persists_witness :
    train_lines demo (fun m tagv tags => spit_out demo m tagv tags false false)
        TrainState.init ["Jan\tB-PER", "", "Wit\tO"]
        = .ok ⟨"\n", "Wit\n", ["O"], ["Jan\t_\tN\t_\t_\tPER\t_\tB-PER", ""],
            [⟨"\n", "Jan\n", ["B-PER"]⟩]⟩
      ∧ (create_train_file demo false
          (["Jan\tB-PER", "", "Wit\tO"] ++ "<utt>" :: ["in\tO", "", "Utrecht\tO"])).os
        = ["Jan\t_\tN\t_\t_\tPER\t_\tB-PER", "", "Wit\t_\tN\t_\t_\tPER\t_\tO", "<utt>",
            "in\t_\tN\t_\t_\tO\t_\tO", "<utt>", "Utrecht\t_\tN\t_\t_\tLOC\t_\tO", "<utt>"]
      ∧ (create_train_file demo false
          (["Jan\tB-PER", "", "Wit\tO"] ++ "<utt>" :: ["in\tO", "", "Utrecht\tO"])).EOS_MARK
        = "<utt>" :=
  ⟨rfl, by decide,
    ((eos_marker_persists demo false false ["Jan\tB-PER", "", "Wit\tO"]
      ["in\tO", "", "Utrecht\tO"]).1
      ⟨"\n", "Wit\n", ["O"], ["Jan\t_\tN\t_\t_\tPER\t_\tB-PER", ""],
        [⟨"\n", "Jan\n", ["B-PER"]⟩]⟩ rfl).1⟩

/-! ## C13 : empty sentence blocks in running-text mode -/

/-- C13: `create_boot_file` with `running = true` on inputs with a line that
holds one blank.  The line is not empty, so it is split and handed to
`boot_out` with no word at all, and `boot_out` writes only a closing line:
the output of the one-line input starts with a separator, and in the output
of `Jan`, blank, `Wit` two separators follow each other. -/
theorem running_blank_line_gives_empty_block :
    demo.split " " = []
      ∧ boot_out demo "\n" [] = some [""]
      ∧ (create_boot_file demo true [" "]).os = [""]
      ∧ (create_boot_file demo true [" "]).exit = .done
      ∧ (create_boot_file demo true ["Jan", " ", "Wit"]).os
          = ["Jan\tB-PER", "", "", "Wit\tB-PER", ""] := by
  refine ⟨by decide, by decide, by decide, by decide, by decide⟩

/-! ## C14, C15 : `nerv` -/

/-- C14: `nerv` on two blank-line-terminated sentences `a b` and `c d` with
tags `T1 T2` and `T3 T4`.  The record of `c`, the first token of the second
sentence, has `T2` as previous tag, the tag of the last token of the first
sentence: after `prev = "_"` the branch of the blank line assigns
`prev = cur`. -/
theorem nerv_prev_crosses_sentence_boundary :
    Nerv.main demo ["a\tX\tT1", "b\tY\tT2", "", "c\tZ\tT3", "d\tZ\tT4", ""]
      = ⟨["a\t\tX\t_\tT1\tT2", "b\t\tY\tT1\tT2\t_", "",
          "c\t\tZ\tT2\tT3\tT4", "d\t\tZ\tT3\tT4\t_", ""], .done⟩ := by
  decide

/-- C15: `nerv` on inputs that end without a blank line.  The token held in
`word`, `ner` and `cur` when `getline` fails is not written: for the two
token lines `a`, `b` only the record of `a` is written, for the single token
line `a` nothing is written, and after a first sentence the token `c` is lost
in the same way. -/
theorem nerv_drops_last_token :
    Nerv.main demo ["a\tX\tT1", "b\tY\tT2"] = ⟨["a\t\tX\t_\tT1\tT2"], .done⟩
      ∧ Nerv.main demo ["a\tX\tT1"] = ⟨[], .done⟩
      ∧ Nerv.main demo ["a\tX\tT1", "b\tY\tT2", "", "c\tZ\tT3"]
          = ⟨["a\t\tX\t_\tT1\tT2", "b\t\tY\tT1\tT2\t_", ""], .done⟩ := by
  refine ⟨by decide, by decide, by decide⟩

/-! ## C11 : running-text mode -/

theorem boot_step_running_token (S : Services) (st : BootState) (line : String)
    (hb : is_break line = false) :
    boot_step S true st line = boot_flush S st (S.split line) := by
  simp only [is_break, decide_eq_false_iff_not, not_or] at hb
  unfold boot_step boot_body
  simp only [hb.1, hb.2, if_false, if_true]

theorem boot_flush_error_exit (S : Services) (st : BootState) (words : List String)
    (r : Run (String × List String)) (h : boot_flush S st words = .error r) :
    r.exit = .undefined := by
  unfold boot_flush at h
  cases he : boot_out S st.EOS_MARK words with
  | none =>
    simp only [he, Except.error.injEq] at h
    subst h; rfl
  | some out => simp [he] at h

theorem boot_step_running_error (S : Services) (st : BootState) (line : String)
    (r : Run (String × List String)) (h : boot_step S true st line = .error r) :
    r.exit = .undefined := by
  cases hbr : is_break line with
  | false =>
    rw [boot_step_running_token S st line hbr] at h
    exact boot_flush_error_exit S st _ r h
  | true =>
    rw [boot_step_break S true st line hbr] at h
    by_cases hb : st.blob ≠ ""
    · rw [if_pos hb] at h
      cases hfl : boot_flush S (st.mark line) (S.split st.blob) with
      | ok st1 => simp [hfl, Except.map] at h
      | error r1 =>
        simp only [hfl, Except.map, Except.error.injEq] at h
        subst h
        exact boot_flush_error_exit S _ _ r1 hfl
    · rw [if_neg hb] at h
      cases h

theorem boot_end_exit (S : Services) (st : BootState) :
    (boot_end S st).exit = .done ∨ (boot_end S st).exit = .undefined := by
  unfold boot_end
  by_cases hb : st.blob ≠ ""
  · rw [if_pos hb]
    cases hfl : boot_flush S st (S.split st.blob) with
    | ok st1 => exact Or.inl rfl
    | error r => exact Or.inr (boot_flush_error_exit S st _ r hfl)
  · rw [if_neg hb]
    exact Or.inl rfl

theorem boot_run_running_exit (S : Services) :
    ∀ (lines : List String) (st : BootState),
      (boot_run S true st lines).exit = .done ∨ (boot_run S true st lines).exit = .undefined := by
  intro lines
  induction lines with
  | nil => intro st; exact boot_end_exit S st
  | cons line rest ih =>
    intro st
    rw [boot_run_cons]
    cases hstep : boot_step S true st line with
    | ok st1 => exact ih st1
    | error r => exact Or.inr (boot_step_running_error S st line r hstep)

theorem boot_run_running (S : Services) :
    ∀ (lines : List String) (st : BootState), st.blob = "" →
      (∀ l ∈ lines, is_break l = false → gazetteer_fits S (S.split l)) →
      (boot_run S true st lines).exit = .done
        ∧ (boot_run S true st lines).handed.map Prod.snd =
            st.handed.map Prod.snd ++ (lines.filter (fun l => !is_break l)).map S.split := by
  intro lines
  induction lines with
  | nil =>
    intro st hb _
    rw [boot_run_nil]
    unfold boot_end
    rw [if_neg (by simpa using hb)]
    exact ⟨rfl, by simp [BootState.stop]⟩
  | cons line rest ih =>
    intro st hb hfit
    rw [boot_run_cons]
    have hfit_rest : ∀ l ∈ rest, is_break l = false → gazetteer_fits S (S.split l) :=
      fun l hl => hfit l (List.mem_cons_of_mem _ hl)
    cases hbr : is_break line with
    | true =>
      rw [boot_step_break S true st line hbr, if_neg (by simpa using hb)]
      have := ih (st.mark line) (by rw [boot_mark_blob, hb]) hfit_rest
      simpa [boot_mark_handed, List.filter_cons, hbr] using this
    | false =>
      obtain ⟨out, hfl⟩ := boot_flush_some S st (S.split line)
        (hfit line (List.mem_cons_self _ _) hbr)
      rw [boot_step_running_token S st line hbr, hfl]
      have := ih { st with os := st.os ++ out,
                           handed := st.handed ++ [(st.EOS_MARK, S.split line)] } hb hfit_rest
      refine ⟨this.1, ?_⟩
      rw [this.2]
      simp [List.filter_cons, hbr]

/-- C11: `create_boot_file` with `running = true` never ends with the
diagnostic `DOOD`, whatever the input.  When the gazetteer fits the words of
every line that is neither empty nor the marker (one resolvable label per
word), the run returns, the word lists handed to `boot_out` are, in input
order, exactly `TiCC::split( line )` of each such line, one call per line,
and the output file is the concatenation of the blocks written by these
calls in that order. -/
theorem running_text_mode (S : Services) (lines : List String) :
    (∀ l, (create_boot_file S true lines).exit ≠ .DOOD l)
      ∧ ((∀ l ∈ lines, is_break l = false → gazetteer_fits S (S.split l)) →
          (create_boot_file S true lines).exit = .done
            ∧ (create_boot_file S true lines).handed.map Prod.snd
                = (lines.filter (fun l => !is_break l)).map S.split
            ∧ (create_boot_file S true lines).os
                = ((create_boot_file S true lines).handed.map (boot_block S)).flatten) := by
  constructor
  · intro l hl
    rcases boot_run_running_exit S lines BootState.init with h | h
    · simp only [create_boot_file] at hl
      rw [hl] at h; cases h
    · simp only [create_boot_file] at hl
      rw [hl] at h; cases h
  · intro hfit
    have h := boot_run_running S lines BootState.init rfl hfit
    refine ⟨h.1, ?_, boot_run_os S true lines BootState.init rfl⟩
    simpa [BootState.init] using h.2

/-- C11 on three lines of running text separated by a blank line and a
marker line. -/
theorem running_text_mode_witness :
    (create_boot_file demo true
        ["Jan de Wit woont in Utrecht", "", "Jan zingt", "<utt>", "Utrecht"]).exit = .done
      ∧ (create_boot_file demo true
        ["Jan de Wit woont in Utrecht", "", "Jan zingt", "<utt>", "Utrecht"]).handed.map Prod.snd
          = [["Jan", "de", "Wit", "woont", "in", "Utrecht"], ["Jan", "zingt"], ["Utrecht"]]
      ∧ (create_boot_file demo true
        ["Jan de Wit woont in Utrecht", "", "Jan zingt", "<utt>", "Utrecht"]).os
          = ["Jan\tB-PER", "de\tI-PER", "Wit\tI-PER", "woont\tO", "in\tO", "Utrecht\tB-LOC", "",
              "Jan\tB-PER", "zingt\tO", "", "Utrecht\tB-LOC", "<utt>"] :=
  ⟨((running_text_mode demo
      ["Jan de Wit woont in Utrecht", "", "Jan zingt", "<utt>", "Utrecht"]).2 (by decide)).1,
    ((running_text_mode demo
      ["Jan de Wit woont in Utrecht", "", "Jan zingt", "<utt>", "Utrecht"]).2
        (by decide)).2.1.trans (by decide),
    by decide⟩

/-! ## C12 : the style of the separators -/

/-- The separator lines of an output file: its lines that are empty or are
the marker line `<utt>` (a token line holds a tab and is neither). -/
def separators (os : List String) : List String :=
  os.filter (fun l => decide (l = "" ∨ l = "<utt>"))

/-- All separator lines of the output file are the same line. -/
def one_style (os : List String) : Prop :=
  ∀ x ∈ separators os, ∀ y ∈ separators os, x = y

instance (os : List String) : Decidable (one_style os) := by
  unfold one_style; infer_instance

/-- The output `b` extends the output `a` by sentence blocks that all close
with the line `sep`: token lines (each holding a tab) followed by `sep`,
block after block. -/
def sep_suffix (sep : String) (a b : List String) : Prop :=
  ∃ blocks : List (List String),
    b = a ++ (blocks.map (fun recs => recs ++ [sep])).flatten
      ∧ ∀ recs ∈ blocks, ∀ l ∈ recs, '\t' ∈ l.data

theorem sep_suffix_refl (sep : String) (a : List String) : sep_suffix sep a a :=
  ⟨[], by simp, by simp⟩

theorem sep_suffix_trans {sep : String} {a b c : List String} (h1 : sep_suffix sep a b)
    (h2 : sep_suffix sep b c) : sep_suffix sep a c := by
  obtain ⟨x, rfl, hx⟩ := h1
  obtain ⟨y, rfl, hy⟩ := h2
  refine ⟨x ++ y, by simp, ?_⟩
  intro recs hr
  rcases List.mem_append.1 hr with h | h
  · exact hx recs h
  · exact hy recs h

theorem sep_suffix_block {m : String} {n : Nat} {out : List String} (a : List String)
    (h : is_block m n out) : sep_suffix (eos_line m) a (a ++ out) := by
  obtain ⟨recs, rfl, _, htab⟩ := h
  refine ⟨[recs], by simp, ?_⟩
  intro r hr
  simp only [List.mem_singleton] at hr
  subst hr; exact htab

theorem sep_suffix_of_utt {a b : List String} (h : utt_suffix a b) : sep_suffix "<utt>" a b := h

theorem sep_suffix_separators {sep : String} {a b : List String} (h : sep_suffix sep a b) :
    ∃ rest, b = a ++ rest ∧ ∀ x ∈ separators rest, x = sep := by
  obtain ⟨blocks, rfl, htab⟩ := h
  refine ⟨_, rfl, ?_⟩
  intro x hx
  simp only [separators, List.mem_filter, List.mem_flatten, List.mem_map,
    decide_eq_true_eq] at hx
  obtain ⟨⟨l, ⟨recs, hrecs, rfl⟩, hl⟩, hsep⟩ := hx
  rcases List.mem_append.1 hl with h1 | h1
  · have ht := htab recs hrecs x h1
    rcases hsep with h0 | h0
    · subst h0; simp at ht
    · subst h0; exact absurd ht (by decide)
  · simpa using h1

theorem train_flush_keep (S : Services)
    (emit : String → List TagResult → List String → Option (List String))
    (hemit : emits_blocks emit) (st : TrainState) (m : String) (hm : st.EOS_MARK = m) :
    (∀ st1, train_flush S emit st = .ok st1 →
        st1.EOS_MARK = m ∧ sep_suffix (eos_line m) st.os st1.os)
      ∧ (∀ r, train_flush S emit st = .error r →
        r.EOS_MARK = m ∧ sep_suffix (eos_line m) st.os r.os) := by
  unfold train_flush
  cases he : emit st.EOS_MARK (S.TagLine st.blob) st.ner_file_tags with
  | none =>
    constructor
    · intro st1 h; cases h
    · intro r h
      simp only [Except.error.injEq] at h
      subst h
      exact ⟨hm, sep_suffix_refl _ _⟩
  | some out =>
    constructor
    · intro st1 h
      simp only [Except.ok.injEq] at h
      subst h
      have hb := hemit _ _ _ _ he
      rw [hm] at hb
      exact ⟨hm, sep_suffix_block _ hb⟩
    · intro r h; cases h

theorem train_body_keep (S : Services)
    (emit : String → List TagResult → List String → Option (List String))
    (hemit : emits_blocks emit) (st : TrainState) (line m : String) (hm : st.EOS_MARK = m) :
    (∀ st1, train_body S emit st line = .ok st1 →
        st1.EOS_MARK = m ∧ sep_suffix (eos_line m) st.os st1.os)
      ∧ (∀ r, train_body S emit st line = .error r →
        r.EOS_MARK = m ∧ sep_suffix (eos_line m) st.os r.os) := by
  obtain ⟨hf1, hf2⟩ := train_flush_keep S emit hemit st m hm
  unfold train_body
  by_cases hl : line = ""
  · rw [if_pos hl]
    by_cases hb : st.blob ≠ ""
    · rw [if_pos hb]
      cases hfl : train_flush S emit st with
      | ok st1 =>
        obtain ⟨h1, h2⟩ := hf1 st1 hfl
        constructor
        · intro st2 h
          simp only [Except.map, Except.ok.injEq] at h
          subst h; exact ⟨h1, h2⟩
        · intro r h; simp [Except.map] at h
      | error r =>
        constructor
        · intro st2 h; simp [Except.map] at h
        · intro r2 h
          simp only [Except.map, Except.error.injEq] at h
          subst h; exact hf2 r hfl
    · rw [if_neg hb]
      constructor
      · intro st1 h
        simp only [Except.ok.injEq] at h
        subst h; exact ⟨hm, sep_suffix_refl _ _⟩
      · intro r h; cases h
  · rw [if_neg hl]
    constructor
    · intro st1 h
      split at h
      · simp only [Except.ok.injEq] at h
        subst h; exact ⟨hm, sep_suffix_refl _ _⟩
      · cases h
    · intro r h
      split at h
      · cases h
      · simp only [Except.error.injEq] at h
        subst h; exact ⟨hm, sep_suffix_refl _ _⟩

theorem train_step_keep (S : Services)
    (emit : String → List TagResult → List String → Option (List String))
    (hemit : emits_blocks emit) (st : TrainState) (line m : String) (hm : st.EOS_MARK = m)
    (hl : line ≠ "<utt>") :
    (∀ st1, train_step S emit st line = .ok st1 →
        st1.EOS_MARK = m ∧ sep_suffix (eos_line m) st.os st1.os)
      ∧ (∀ r, train_step S emit st line = .error r →
        r.EOS_MARK = m ∧ sep_suffix (eos_line m) st.os r.os) := by
  unfold train_step
  simp only [hl, if_false]
  exact train_body_keep S emit hemit st line m hm

theorem train_lines_keep (S : Services)
    (emit : String → List TagResult → List String → Option (List String))
    (hemit : emits_blocks emit) (m : String) :
    ∀ (lines : List String) (st : TrainState), st.EOS_MARK = m → "<utt>" ∉ lines →
      (∀ st1, train_lines S emit st lines = .ok st1 →
          st1.EOS_MARK = m ∧ sep_suffix (eos_line m) st.os st1.os)
        ∧ (∀ r, train_lines S emit st lines = .error r →
          r.EOS_MARK = m ∧ sep_suffix (eos_line m) st.os r.os) := by
  intro lines
  induction lines with
  | nil =>
    intro st hm _
    constructor
    · intro st1 h
      simp only [train_lines, Except.ok.injEq] at h
      subst h; exact ⟨hm, sep_suffix_refl _ _⟩
    · intro r h; simp [train_lines] at h
  | cons line rest ih =>
    intro st hm hno
    have hl : line ≠ "<utt>" := fun h => hno (by simp [h])
    have hrest : "<utt>" ∉ rest := fun h => hno (List.mem_cons_of_mem _ h)
    obtain ⟨hs1, hs2⟩ := train_step_keep S emit hemit st line m hm hl
    rw [train_lines]
    cases hstep : train_step S emit st line with
    | ok st2 =>
      obtain ⟨h1, h2⟩ := hs1 st2 hstep
      obtain ⟨i1, i2⟩ := ih st2 h1 hrest
      constructor
      · intro st1 h
        obtain ⟨h3, h4⟩ := i1 st1 h
        exact ⟨h3, sep_suffix_trans h2 h4⟩
      · intro r h
        obtain ⟨h3, h4⟩ := i2 r h
        exact ⟨h3, sep_suffix_trans h2 h4⟩
    | error r1 =>
      constructor
      · intro st1 h; cases h
      · intro r h
        simp only [Except.error.injEq] at h
        subst h; exact hs2 r1 hstep

theorem train_run_keep (S : Services)
    (emit : String → List TagResult → List String → Option (List String))
    (hemit : emits_blocks emit) (m : String) (lines : List String) (st : TrainState)
    (hm : st.EOS_MARK = m) (hno : "<utt>" ∉ lines) :
    (train_run S emit st lines).EOS_MARK = m
      ∧ sep_suffix (eos_line m) st.os (train_run S emit st lines).os := by
  obtain ⟨h1, h2⟩ := train_lines_keep S emit hemit m lines st hm hno
  unfold train_run
  cases hl : train_lines S emit st lines with
  | error r => exact h2 r hl
  | ok st1 =>
    obtain ⟨hm1, hs1⟩ := h1 st1 hl
    obtain ⟨hf1, hf2⟩ := train_flush_keep S emit hemit st1 m hm1
    simp only
    unfold train_end
    by_cases hb : st1.blob ≠ ""
    · rw [if_pos hb]
      cases hfl : train_flush S emit st1 with
      | ok st2 =>
        obtain ⟨h3, h4⟩ := hf1 st2 hfl
        exact ⟨h3, sep_suffix_trans hs1 h4⟩
      | error r =>
        obtain ⟨h3, h4⟩ := hf2 r hfl
        exact ⟨h3, sep_suffix_trans hs1 h4⟩
    · rw [if_neg hb]
      exact ⟨hm1, hs1⟩

theorem boot_flush_keep (S : Services) (st : BootState) (words : List String) (m : String)
    (hm : st.EOS_MARK = m) :
    (∀ st1, boot_flush S st words = .ok st1 →
        st1.EOS_MARK = m ∧ sep_suffix (eos_line m) st.os st1.os)
      ∧ (∀ r, boot_flush S st words = .error r →
        r.EOS_MARK = m ∧ sep_suffix (eos_line m) st.os r.os) := by
  unfold boot_flush
  cases he : boot_out S st.EOS_MARK words with
  | none =>
    constructor
    · intro st1 h; cases h
    · intro r h
      simp only [Except.error.injEq] at h
      subst h
      exact ⟨hm, sep_suffix_refl _ _⟩
  | some out =>
    constructor
    · intro st1 h
      simp only [Except.ok.injEq] at h
      subst h
      have hb := boot_out_is_block _ _ _ _ he
      rw [hm] at hb
      exact ⟨hm, sep_suffix_block _ hb⟩
    · intro r h; cases h

theorem boot_body_keep (S : Services) (running : Bool) (st : BootState) (line m : String)
    (hm : st.EOS_MARK = m) :
    (∀ st1, boot_body S running st line = .ok st1 →
        st1.EOS_MARK = m ∧ sep_suffix (eos_line m) st.os st1.os)
      ∧ (∀ r, boot_body S running st line = .error r →
        r.EOS_MARK = m ∧ sep_suffix (eos_line m) st.os r.os) := by
  unfold boot_body
  by_cases hl : line = ""
  · rw [if_pos hl]
    by_cases hb : st.blob ≠ ""
    · rw [if_pos hb]
      obtain ⟨hf1, hf2⟩ := boot_flush_keep S st (S.split st.blob) m hm
      cases hfl : boot_flush S st (S.split st.blob) with
      | ok st1 =>
        obtain ⟨h1, h2⟩ := hf1 st1 hfl
        constructor
        · intro st2 h
          simp only [Except.map, Except.ok.injEq] at h
          subst h; exact ⟨h1, h2⟩
        · intro r h; simp [Except.map] at h
      | error r =>
        constructor
        · intro st2 h; simp [Except.map] at h
        · intro r2 h
          simp only [Except.map, Except.error.injEq] at h
          subst h; exact hf2 r hfl
    · rw [if_neg hb]
      constructor
      · intro st1 h
        simp only [Except.ok.injEq] at h
        subst h; exact ⟨hm, sep_suffix_refl _ _⟩
      · intro r h; cases h
  · rw [if_neg hl]
    cases running with
    | true =>
      simp only [if_true]
      exact boot_flush_keep S st (S.split line) m hm
    | false =>
      simp only [Bool.false_eq_true, if_false]
      constructor
      · intro st1 h
        split at h
        · simp only [Except.ok.injEq] at h
          subst h; exact ⟨hm, sep_suffix_refl _ _⟩
        · cases h
      · intro r h
        split at h
        · cases h
        · simp only [Except.error.injEq] at h
          subst h; exact ⟨hm, sep_suffix_refl _ _⟩

theorem boot_step_keep (S : Services) (running : Bool) (st : BootState) (line m : String)
    (hm : st.EOS_MARK = m) (hl : line ≠ "<utt>") :
    (∀ st1, boot_step S running st line = .ok st1 →
        st1.EOS_MARK = m ∧ sep_suffix (eos_line m) st.os st1.os)
      ∧ (∀ r, boot_step S running st line = .error r →
        r.EOS_MARK = m ∧ sep_suffix (eos_line m) st.os r.os) := by
  unfold boot_step
  simp only [hl, if_false]
  exact boot_body_keep S running st line m hm

theorem boot_lines_keep (S : Services) (running : Bool) (m : String) :
    ∀ (lines : List String) (st : BootState), st.EOS_MARK = m → "<utt>" ∉ lines →
      (∀ st1, boot_lines S running st lines = .ok st1 →
          st1.EOS_MARK = m ∧ sep_suffix (eos_line m) st.os st1.os)
        ∧ (∀ r, boot_lines S running st lines = .error r →
          r.EOS_MARK = m ∧ sep_suffix (eos_line m) st.os r.os) := by
  intro lines
  induction lines with
  | nil =>
    intro st hm _
    constructor
    · intro st1 h
      simp only [boot_lines, Except.ok.injEq] at h
      subst h; exact ⟨hm, sep_suffix_refl _ _⟩
    · intro r h; simp [boot_lines] at h
  | cons line rest ih =>
    intro st hm hno
    have hl : line ≠ "<utt>" := fun h => hno (by simp [h])
    have hrest : "<utt>" ∉ rest := fun h => hno (List.mem_cons_of_mem _ h)
    obtain ⟨hs1, hs2⟩ := boot_step_keep S running st line m hm hl
    rw [boot_lines]
    cases hstep : boot_step S running st line with
    | ok st2 =>
      obtain ⟨h1, h2⟩ := hs1 st2 hstep
      obtain ⟨i1, i2⟩ := ih st2 h1 hrest
      constructor
      · intro st1 h
        obtain ⟨h3, h4⟩ := i1 st1 h
        exact ⟨h3, sep_suffix_trans h2 h4⟩
      · intro r h
        obtain ⟨h3, h4⟩ := i2 r h
        exact ⟨h3, sep_suffix_trans h2 h4⟩
    | error r1 =>
      constructor
      · intro st1 h; cases h
      · intro r h
        simp only [Except.error.injEq] at h
        subst h; exact hs2 r1 hstep

theorem boot_run_keep (S : Services) (running : Bool) (m : String) (lines : List String)
    (st : BootState) (hm : st.EOS_MARK = m) (hno : "<utt>" ∉ lines) :
    (boot_run S running st lines).EOS_MARK = m
      ∧ sep_suffix (eos_line m) st.os (boot_run S running st lines).os := by
  obtain ⟨h1, h2⟩ := boot_lines_keep S running m lines st hm hno
  unfold boot_run
  cases hl : boot_lines S running st lines with
  | error r => exact h2 r hl
  | ok st1 =>
    obtain ⟨hm1, hs1⟩ := h1 st1 hl
    obtain ⟨hf1, hf2⟩ := boot_flush_keep S st1 (S.split st1.blob) m hm1
    simp only
    unfold boot_end
    by_cases hb : st1.blob ≠ ""
    · rw [if_pos hb]
      cases hfl : boot_flush S st1 (S.split st1.blob) with
      | ok st2 =>
        obtain ⟨h3, h4⟩ := hf1 st2 hfl
        exact ⟨h3, sep_suffix_trans hs1 h4⟩
      | error r =>
        obtain ⟨h3, h4⟩ := hf2 r hfl
        exact ⟨h3, sep_suffix_trans hs1 h4⟩
    · rw [if_neg hb]
      exact ⟨hm1, hs1⟩

theorem blank_separators_of_suffix {b : List String} (h : sep_suffix (eos_line "\n") [] b) :
    ∀ x ∈ separators b, x = "" := by
  obtain ⟨rest, hb, hall⟩ := sep_suffix_separators h
  simp only [List.nil_append] at hb
  subst hb
  exact hall

/-- The sentence separators of a run whose loop read `pre` (no marker line in
it) up to state `st` and then the marker line: those written for `pre` are
empty lines, those of the remainder `rest` of the output are `<utt>` lines. -/
def blank_then_utt (pre_os os : List String) : Prop :=
  (∀ x ∈ separators pre_os, x = "")
    ∧ ∃ rest, os = pre_os ++ rest ∧ ∀ x ∈ separators rest, x = "<utt>"

/-! ### The claim fails as stated -/

/-- C12 as stated is false: for the input `Jan`, blank line, `Wit`, `<utt>`
both `create_train_file` and `create_boot_file` close the first sentence by an
empty line, written before the marker line is read, and the second by the
line `<utt>`. -/
theorem separators_mixed :
    (create_train_file demo false ["Jan\tB-PER", "", "Wit\tO", "<utt>"]).os
        = ["Jan\t_\tN\t_\t_\tPER\t_\tB-PER", "", "Wit\t_\tN\t_\t_\tPER\t_\tO", "<utt>"]
      ∧ ¬ one_style (create_train_file demo false ["Jan\tB-PER", "", "Wit\tO", "<utt>"]).os
      ∧ (create_boot_file demo false ["Jan\tB-PER", "", "Wit\tO", "<utt>"]).os
        = ["Jan\tB-PER", "", "Wit\tB-PER", "<utt>"]
      ∧ ¬ one_style (create_boot_file demo false ["Jan\tB-PER", "", "Wit\tO", "<utt>"]).os := by
  refine ⟨by decide, by decide, by decide, by decide⟩

/-! ### The claim as amended -/

/-- C12, amended: the separators follow the marker in force when they are
written.  For `create_train_file` of both programs and `create_boot_file` in
either mode:
* on an input `lines` without a marker line, every separator of the output
  file is an empty line;
* on an input `pre ++ "<utt>" :: post` whose first marker line comes after
  `pre`, if the loop reads `pre` up to a state `st`, the separators written
  until then (those of `st.os`) are empty lines and all separators written
  afterwards are `<utt>` lines. -/
theorem separators_follow_marker (S : Services) (override running : Bool)
    (lines pre post : List String) (hlines : "<utt>" ∉ lines) (hpre : "<utt>" ∉ pre) :
    ((∀ x ∈ separators (create_train_file S override lines).os, x = "")
        ∧ (∀ x ∈ separators (Enr.create_train_file S lines).os, x = "")
        ∧ (∀ x ∈ separators (create_boot_file S running lines).os, x = ""))
      ∧ (∀ st, train_lines S (fun m tagv tags => spit_out S m tagv tags override false)
            TrainState.init pre = .ok st →
          blank_then_utt st.os (create_train_file S override (pre ++ "<utt>" :: post)).os)
      ∧ (∀ st, train_lines S (Enr.spit_out S) TrainState.init pre = .ok st →
          blank_then_utt st.os (Enr.create_train_file S (pre ++ "<utt>" :: post)).os)
      ∧ (∀ st, boot_lines S running BootState.init pre = .ok st →
          blank_then_utt st.os (create_boot_file S running (pre ++ "<utt>" :: post)).os) := by
  refine ⟨⟨?_, ?_, ?_⟩, ?_, ?_, ?_⟩
  · exact blank_separators_of_suffix
      (train_run_keep S _ (spit_out_emits_blocks S override) "\n" lines TrainState.init rfl
        hlines).2
  · exact blank_separators_of_suffix
      (train_run_keep S _ (enr_spit_out_emits_blocks S) "\n" lines TrainState.init rfl hlines).2
  · exact blank_separators_of_suffix
      (boot_run_keep S running "\n" lines BootState.init rfl hlines).2
  · intro st hst
    have hk := ((train_lines_keep S _ (spit_out_emits_blocks S override) "\n" pre
      TrainState.init rfl hpre).1 st hst).2
    have hrun := train_run_append S _ pre _ st ("<utt>" :: post) hst
    have hm := train_run_marker S _ (spit_out_emits_blocks S override) st post
    simp only [create_train_file, hrun]
    exact ⟨blank_separators_of_suffix hk, sep_suffix_separators (sep_suffix_of_utt hm.2)⟩
  · intro st hst
    have hk := ((train_lines_keep S _ (enr_spit_out_emits_blocks S) "\n" pre
      TrainState.init rfl hpre).1 st hst).2
    have hrun := train_run_append S _ pre _ st ("<utt>" :: post) hst
    have hm := train_run_marker S _ (enr_spit_out_emits_blocks S) st post
    simp only [Enr.create_train_file, hrun]
    exact ⟨blank_separators_of_suffix hk, sep_suffix_separators (sep_suffix_of_utt hm.2)⟩
  · intro st hst
    have hk := ((boot_lines_keep S running "\n" pre BootState.init rfl hpre).1 st hst).2
    have hrun := boot_run_append S running pre _ st ("<utt>" :: post) hst
    have hm := boot_run_marker S running st post
    simp only [create_boot_file, hrun]
    exact ⟨blank_separators_of_suffix hk, sep_suffix_separators (sep_suffix_of_utt hm.2)⟩

/-- C12 amended, on the input `Jan`, blank line, `Wit`, `<utt>`, `in`: without
the marker line and what follows all separators are empty lines; with it, the
separator written before the marker is read is empty and the later ones are
`<utt>`. -/
theorem separators_follow_marker_witness :
    "<utt>" ∉ ["Jan\tB-PER", "", "Wit\tO"]
      ∧ (∀ x ∈ separators (create_train_file demo false ["Jan\tB-PER", "", "Wit\tO"]).os, x = "")
      ∧ blank_then_utt ["Jan\t_\tN\t_\t_\tPER\t_\tB-PER", ""]
          (create_train_file demo false (["Jan\tB-PER", "", "Wit\tO"] ++ "<utt>" :: ["in\tO"])).os
      ∧ (create_train_file demo false (["Jan\tB-PER", "", "Wit\tO"] ++ "<utt>" :: ["in\tO"])).os
        = ["Jan\t_\tN\t_\t_\tPER\t_\tB-PER", "", "Wit\t_\tN\t_\t_\tPER\t_\tO", "<utt>",
            "in\t_\tN\t_\t_\tO\t_\tO", "<utt>"] :=
  ⟨by decide,
    (separators_follow_marker demo false false ["Jan\tB-PER", "", "Wit\tO"]
      ["Jan\tB-PER", "", "Wit\tO"] ["in\tO"] (by decide) (by decide)).1.1,
    (separators_follow_marker demo false false ["Jan\tB-PER", "", "Wit\tO"]
      ["Jan\tB-PER", "", "Wit\tO"] ["in\tO"] (by decide) (by decide)).2.1
      ⟨"\n", "Wit\n", ["O"], ["Jan\t_\tN\t_\t_\tPER\t_\tB-PER", ""],
        [⟨"\n", "Jan\n", ["B-PER"]⟩]⟩ rfl,
    by decide⟩

end Toad
